import Mathlib

/-!
Verification development for the threshold-signature client library
(`keypuzzlewallet/tss`).  The Rust sources under `src/` are embedded
shallowly: pure control flow is translated function by function; the
external cryptographic primitives (the `curv`/`thresholdsig` curve math,
`aes_gcm`, `sha2`, `base64`, `serde`) are black boxes and appear either as
oracle parameters or as concrete reference implementations where a claim
needs an exact value.  Machine integers are modelled as `Nat` with explicit
reduction mod 2^16 (`u16`) / 2^64 (`usize`), matching release-build
(wrapping) semantics of Rust arithmetic.
-/

set_option maxRecDepth 8000

namespace Tss

/-- 2^16, the modulus of Rust `u16` arithmetic. -/
def U16MOD : Nat := 65536

/-- 2^64, the modulus of Rust `usize`/`u64` arithmetic (64-bit targets). -/
def USIZEMOD : Nat := 18446744073709551616

/-- Truncating cast to `u16` (`as u16`, release semantics). -/
def u16 (n : Nat) : Nat := n % U16MOD

/-- Wrapping `u16` subtraction (`a - b` on `u16`, release semantics). -/
def u16sub (a b : Nat) : Nat := (u16 a + U16MOD - u16 b) % U16MOD

/-- Wrapping `usize` subtraction (`a - b` on `usize`, release semantics). -/
def usizeSub (a b : Nat) : Nat := (a % USIZEMOD + USIZEMOD - b % USIZEMOD) % USIZEMOD

/-- Truncating cast from `i32` to `u16` (`as u16` on a two's-complement value). -/
def intToU16 (i : Int) : Nat := (i % 65536).toNat

/-! ## Data model of `utils/common.rs`

Opaque cryptographic values (partial signatures, offline stages, curve
points, scalars, VSS schemes) are represented by `Nat`-backed stand-in
structures: the signing control flow never inspects them, it only moves
them around and hands them to the oracle primitives. -/

/-- Stand-in for `gg20::state_machine::sign::PartialSignature` (external). -/
structure EcdsaPartialSig where
  val : Nat
deriving DecidableEq, Repr, Inhabited

/-- Stand-in for `t_ed25519::thresholdsig::LocalSig` (repo code outside `src/`). -/
structure LocalSig where
  val : Nat
deriving DecidableEq, Repr, Inhabited

/-- `PartialSignatureType` of `utils/common.rs`. -/
inductive PartialSignatureType where
  | ECDSA (p : EcdsaPartialSig)
  | EDDSA (p : LocalSig)
deriving DecidableEq, Repr

/-- `SignedPartialSignature` of `utils/common.rs`. -/
structure SignedPartialSignature where
  party_id : Nat
  part : PartialSignatureType
  signed_at : String
deriving DecidableEq, Repr

/-- `SignatureRecidHex` (from the `rustmodel` crate, fields as used in `src/`). -/
structure SignatureRecidHex where
  r : String
  s : String
  recid : Int
deriving DecidableEq, Repr

/-- `SigningState` of `utils/common.rs` (`t`, `n` are `u16` values). -/
structure SigningState where
  t : Nat
  n : Nat
  signing_parts : List SignedPartialSignature
  signature : Option SignatureRecidHex
deriving DecidableEq, Repr

/-- `EddsaOffline` of `t_ed25519/presignature.rs`: one precomputed nonce entry.
The curve values are opaque stand-ins. -/
structure EddsaOffline where
  nonce_vss_schemes : List Nat
  combined_nonce_share : Nat
  agg_nonce : Nat
deriving DecidableEq, Repr, Inhabited

/-- `EddsaOfflineResult` of `utils/common.rs` (`nonce_start_index`, `nonce_size`
are `u16` values). -/
structure EddsaOfflineResult where
  parties : List Nat
  nonce_start_index : Nat
  nonce_size : Nat
  completed_offline : List EddsaOffline
deriving DecidableEq, Repr

/-- `EddsaLocalKey` of `t_ed25519/keygen.rs` (the fields the signer reads,
plus the threshold parameters; curve values are opaque stand-ins). -/
structure EddsaLocalKey where
  combined_share : Nat
  vss_schemes : List Nat
  agg_pubkey : Nat
  party_i : Nat
  t : Nat
  n : Nat
deriving DecidableEq, Repr

/-- `EddsaLocalKeyData` of `utils/common.rs`. -/
structure EddsaLocalKeyData where
  local_key : EddsaLocalKey
  offline_data : EddsaOfflineResult
  algorithm : String
deriving DecidableEq, Repr

/-- Stand-in for `gg20::state_machine::sign::CompletedOfflineStage` (external). -/
structure CompletedOfflineStage where
  val : Nat
deriving DecidableEq, Repr

/-- `EcdsaOfflineResult` of `utils/common.rs`. -/
structure EcdsaOfflineResult where
  parties : List Nat
  completed_offline : CompletedOfflineStage
deriving DecidableEq, Repr

/-- Stand-in for `gg20::state_machine::keygen::LocalKey<Secp256k1>` (external). -/
structure EcdsaLocalKey where
  val : Nat
deriving DecidableEq, Repr

/-- `EcdsaLocalKeyData` of `utils/common.rs`. -/
structure EcdsaLocalKeyData where
  local_key : EcdsaLocalKey
  offline_data : List EcdsaOfflineResult
  algorithm : String
deriving DecidableEq, Repr

/-! ## The EdDSA signer (`t_ed25519/signing.rs`) -/

/-- An EdDSA threshold signature as produced by `thresholdsig::generate`,
already rendered to the hex strings the code stores (`hex::encode` of
`R.to_bytes(true)` / `s.to_bytes()` is folded into the oracle). -/
structure EddsaSig where
  rHex : String
  sHex : String
deriving DecidableEq, Repr

/-- Oracle bundle for the external EdDSA primitives used by
`t_ed25519::signing::sign` (`thresholdsig` lives in this repository but
outside `src/`; its behaviour is a parameter here and only its fallibility,
visible in the `src/` call sites, matters for the claims).
Arguments mirror the Rust calls:
`compute data combined_nonce_share combined_share`,
`verifyLocalSigs local_sig_vec indices vss_schemes nonce_vss_schemes`
(`none` models the `Err` case of `LocalSig::verify_local_sigs`),
`generate vss_sum local_sig_vec indices agg_nonce`,
`verify signature data agg_pubkey`. -/
structure EddsaPrims where
  compute : List Nat → Nat → Nat → LocalSig
  verifyLocalSigs : List LocalSig → List Nat → List Nat → List Nat → Option Nat
  generate : Nat → List LocalSig → List Nat → Nat → EddsaSig
  verify : EddsaSig → List Nat → Nat → Bool

/-- Outcome tags for the two `sign` functions.  The `panicked…` constructors
are the error branch of this total embedding: they mark inputs on which the
Rust code panics (`unwrap` on `None`, out-of-bounds `Vec` indexing, or the
`panic!("wrong signature type")` arm); the state component returned with
them is the state as mutated up to the point of the panic. -/
inductive SignErr where
  | alreadySigned
  | nonceOutOfRange
  | verifyLocalSigFailed
  | signManualNewFailed
  | onlineStageFailed
  | signatureVerificationFailed
  | panickedWrongSignatureType
  | panickedIndexOutOfBounds
  | panickedUnwrapNoOffline
deriving DecidableEq, Repr

/-- The `.map(|x| match x.part { EDDSA(p) => p, _ => panic!(…) })` loop:
`none` models the panic on a non-EdDSA part. -/
def extractEddsaParts : List SignedPartialSignature → Option (List LocalSig)
  | [] => some []
  | x :: xs =>
    match x.part, extractEddsaParts xs with
    | .EDDSA p, some ps => some (p :: ps)
    | _, _ => none

/-- `t_ed25519::signing::sign`, translated line by line.  The returned pair
is (state after the call, result); `now` stands for the `Utc::now()`
timestamp string.  Note the two faithful oddities of the source:
the dead `nonce_index < 0` test on an unsigned value, and the combine step
indexing `completed_offline[nonce]` by the *raw* nonce. -/
def eddsaSign (prims : EddsaPrims) (state : SigningState) (local_key : EddsaLocalKeyData)
    (data_to_sign : List Nat) (party_id : Nat) (nonce : Nat) (now : String) :
    SigningState × Except SignErr Unit :=
  if u16 state.signing_parts.length > state.t then
    (state, .error .alreadySigned)
  else
    let nonce_index := usizeSub nonce local_key.offline_data.nonce_start_index
    if nonce_index < 0 ∨ nonce_index ≥ local_key.offline_data.completed_offline.length then
      (state, .error .nonceOutOfRange)
    else
      let partial_signature := prims.compute data_to_sign
        ((local_key.offline_data.completed_offline.getD nonce_index default).combined_nonce_share)
        local_key.local_key.combined_share
      if u16 state.signing_parts.length > u16sub state.t 1 then
        -- the last part signed: push, then combine into one signature
        let parts := state.signing_parts ++
          [⟨party_id, .EDDSA partial_signature, now⟩]
        let state1 : SigningState := { state with signing_parts := parts }
        match extractEddsaParts parts with
        | none => (state1, .error .panickedWrongSignatureType)
        | some local_sig_vec =>
          match local_key.offline_data.completed_offline[nonce]? with
          | none => (state1, .error .panickedIndexOutOfBounds)
          | some entry =>
            match prims.verifyLocalSigs local_sig_vec
                (parts.map (fun x => u16sub x.party_id 1))
                local_key.local_key.vss_schemes entry.nonce_vss_schemes with
            | none => (state1, .error .verifyLocalSigFailed)
            | some vss_sum =>
              let signature := prims.generate vss_sum local_sig_vec
                (parts.map (fun x => u16sub x.party_id 1)) entry.agg_nonce
              let state2 : SigningState :=
                { state1 with signature := some ⟨signature.rHex, signature.sHex, 0⟩ }
              if prims.verify signature data_to_sign local_key.local_key.agg_pubkey then
                (state2, .ok ())
              else
                (state2, .error .signatureVerificationFailed)
      else
        -- not all parties signed: push the partial for the next signer
        ({ state with signing_parts := state.signing_parts ++
            [⟨party_id, .EDDSA partial_signature, now⟩] }, .ok ())

/-! ## The ECDSA signer (`gg20/signing.rs`) -/

/-- A recoverable ECDSA signature, hex-rendered as the code stores it. -/
structure EcdsaSig where
  rHex : String
  sHex : String
  recid : Int
deriving DecidableEq, Repr

/-- Stand-in for the `SignManual` online-stage context (external). -/
structure SignManualCtx where
  val : Nat
deriving DecidableEq, Repr

/-- Oracles for the external gg20 primitives used by `gg20::signing::sign`:
`signManualNew msg completed_offline_stage` models `SignManual::new`
(`none` = `Err`), `complete ctx partials` models `SignManual::complete`,
`publicKey` the offline stage's public key accessor, and
`verify signature public_key msg` the `party_i::verify` check. -/
structure EcdsaPrims where
  signManualNew : Nat → CompletedOfflineStage → Option (SignManualCtx × EcdsaPartialSig)
  complete : SignManualCtx → List EcdsaPartialSig → Option EcdsaSig
  publicKey : CompletedOfflineStage → Nat
  verify : EcdsaSig → Nat → Nat → Bool

/-- `BigInt::from_bytes` of `curv` (big-endian byte interpretation). -/
def bigIntFromBytes (bs : List Nat) : Nat := bs.foldl (fun a b => a * 256 + b) 0

/-- `HashSet` equality of the signer list against an offline record's
`parties` field: equality of the underlying element sets. -/
def sameSet (a b : List Nat) : Bool :=
  a.all (fun x => b.contains x) && b.all (fun x => a.contains x)

/-- The offline-stage lookup of `gg20::signing::sign`:
`local_key.offline_data.iter().find(|x| signers_set.eq(&…x.parties…))`. -/
def gg20SelectOffline (local_key : EcdsaLocalKeyData) (signers : List Nat) :
    Option EcdsaOfflineResult :=
  local_key.offline_data.find? (fun x => sameSet signers x.parties)

/-- The `.map(|x| match x.part { ECDSA(p) => p, _ => panic!(…) })` loop. -/
def extractEcdsaParts : List SignedPartialSignature → Option (List EcdsaPartialSig)
  | [] => some []
  | x :: xs =>
    match x.part, extractEcdsaParts xs with
    | .ECDSA p, some ps => some (p :: ps)
    | _, _ => none

/-- `gg20::signing::sign`, translated line by line.  The `.unwrap()` on the
offline lookup is the `panickedUnwrapNoOffline` branch.  Unlike the EdDSA
signer, the combine step completes the signature *before* pushing the own
partial, so an `Err` of `SignManual::complete` leaves the state untouched. -/
def gg20Sign (prims : EcdsaPrims) (state : SigningState) (local_key : EcdsaLocalKeyData)
    (data_to_sign : List Nat) (party_id : Nat) (signers : List Nat) (now : String) :
    SigningState × Except SignErr Unit :=
  if u16 state.signing_parts.length > u16 state.t then
    (state, .error .alreadySigned)
  else
    match gg20SelectOffline local_key signers with
    | none => (state, .error .panickedUnwrapNoOffline)
    | some offline =>
      let completed_offline_stage := offline.completed_offline
      let msg := bigIntFromBytes data_to_sign
      match prims.signManualNew msg completed_offline_stage with
      | none => (state, .error .signManualNewFailed)
      | some sp =>
        let signing := sp.1
        let partial_signature := sp.2
        if u16 state.signing_parts.length > u16sub state.t 1 then
          match extractEcdsaParts state.signing_parts with
          | none => (state, .error .panickedWrongSignatureType)
          | some gt =>
            match prims.complete signing gt with
            | none => (state, .error .onlineStageFailed)
            | some signature =>
              let state1 : SigningState := { state with
                signing_parts := state.signing_parts ++
                  [⟨party_id, .ECDSA partial_signature, now⟩],
                signature := some ⟨signature.rHex, signature.sHex, signature.recid⟩ }
              if prims.verify signature (prims.publicKey completed_offline_stage) msg then
                (state1, .ok ())
              else
                (state1, .error .signatureVerificationFailed)
        else
          ({ state with signing_parts := state.signing_parts ++
              [⟨party_id, .ECDSA partial_signature, now⟩] }, .ok ())

/-- The invariant on the signing state stated by the spec:
`parts.len() ≤ t+1`, and when `parts.len() == t+1` the `signature` is `Some`. -/
def SigningInv (s : SigningState) : Prop :=
  s.signing_parts.length ≤ s.t + 1 ∧
  (s.signing_parts.length = s.t + 1 → s.signature.isSome = true)

instance (s : SigningState) : Decidable (SigningInv s) := by
  unfold SigningInv; infer_instance

/-! ## The request dispatcher (`cexport.rs`, `c_sign`) and the base64 state
codec of `utils/common.rs` -/

/-- `KeyScheme` of the `rustmodel` crate (as used by the dispatcher). -/
inductive KeyScheme where
  | ECDSA
  | EDDSA
deriving DecidableEq, Repr

/-- `SignedPartialSignatureBase64` (`rustmodel`): `party_id` is `i32`,
`part_base64` is the base64 of the serialized partial. -/
structure SignedPartialSignatureBase64 where
  party_id : Int
  part_base64 : String
  signed_at : String
deriving DecidableEq, Repr

/-- `SigningStateBase64` (`rustmodel`): the wire form of a signing state. -/
structure SigningStateBase64 where
  t : Int
  n : Int
  key_scheme : KeyScheme
  signature : Option SignatureRecidHex
  signing_parts_base64 : List SignedPartialSignatureBase64
deriving DecidableEq, Repr

/-- Oracles for the external serialization layers the dispatcher goes
through: `encodePart` is `base64(serde_json(part))`; the two decoders model
`serde_json::from_slice(base64::decode(…))` (`none` = the `unwrap` panic);
`hexDecode` is `hex::decode`; the two `decrypt…` fields model
`utils::common::decrypt_ecdsa` / `decrypt_eddsa` applied to the request's
encrypted local key and password. -/
structure ExtCodecs where
  encodePart : PartialSignatureType → String
  decodeEcdsaPart : String → Option EcdsaPartialSig
  decodeEddsaPart : String → Option LocalSig
  hexDecode : String → Option (List Nat)
  decryptEcdsa : String → String → Option EcdsaLocalKeyData
  decryptEddsa : String → String → Option EddsaLocalKeyData

/-- `signing_state_obj_to_base64` of `utils/common.rs`. -/
def signingStateObjToBase64 (ext : ExtCodecs) (scheme : KeyScheme)
    (result : SigningState) : SigningStateBase64 :=
  { t := (result.t : Int)
    n := (result.n : Int)
    key_scheme := scheme
    signature := result.signature
    signing_parts_base64 := result.signing_parts.map (fun x =>
      { party_id := (x.party_id : Int)
        part_base64 := ext.encodePart x.part
        signed_at := x.signed_at }) }

/-- `signing_state_base64_to_obj` of `utils/common.rs`; `none` is the panic
branch of the `unwrap`ped base64/serde decoding of a partial. -/
def signingStateBase64ToObj (ext : ExtCodecs) (result : SigningStateBase64) :
    Option SigningState := do
  let parts ← result.signing_parts_base64.mapM (fun x => do
    let part ←
      if result.key_scheme = KeyScheme.ECDSA then
        (ext.decodeEcdsaPart x.part_base64).map PartialSignatureType.ECDSA
      else
        (ext.decodeEddsaPart x.part_base64).map PartialSignatureType.EDDSA
    pure (⟨intToU16 x.party_id, part, x.signed_at⟩ : SignedPartialSignature))
  pure
    { t := intToU16 result.t
      n := intToU16 result.n
      signature := result.signature
      signing_parts := parts }

/-- Modelled from the spec: `NativeSigningRequest` lives in the `rustmodel`
crate, which is code of this repository not under `src/`.  Its fields follow
the dispatcher table of the spec
(`key_scheme, state_base64, encrypted_local_key, password, hex_data,
party_id, signers[] | nonce`); `encrypted_local_key` is kept as the opaque
string handed to the decrypt oracle. -/
structure NativeSigningRequest where
  key_scheme : KeyScheme
  state_base64 : SigningStateBase64
  encrypted_local_key : String
  password : String
  hex_data : String
  party_id : Int
  signers : List Int
  nonce : Nat
deriving Repr

/-- Result of `c_sign` (it returns either the JSON of the updated
`SigningStateBase64` or an `error: …` string; panics are kept apart). -/
inductive CSignResult where
  | ok (state : SigningStateBase64)
  | err (e : SignErr)
  | errHexDecode
  | errDecryptKey
  | panickedStateDecode
deriving DecidableEq, Repr

/-- `c_sign` of `cexport.rs`, translated from the source: decode the state,
hex-decode the payload, decrypt the local key, dispatch on the scheme —
and, in the EdDSA arm, pass the literal nonce `0` exactly as the source
does (`t_ed25519::signing::sign(…, request.party_id as u16, 0)`). -/
def cSign (eprims : EcdsaPrims) (dprims : EddsaPrims) (ext : ExtCodecs)
    (request : NativeSigningRequest) (now : String) : CSignResult :=
  match signingStateBase64ToObj ext request.state_base64 with
  | none => .panickedStateDecode
  | some state =>
    match ext.hexDecode request.hex_data with
    | none => .errHexDecode
    | some data =>
      if request.key_scheme = KeyScheme.ECDSA then
        match ext.decryptEcdsa request.encrypted_local_key request.password with
        | none => .errDecryptKey
        | some lk =>
          match gg20Sign eprims state lk data (intToU16 request.party_id)
              (request.signers.map intToU16) now with
          | (st, .ok _) => .ok (signingStateObjToBase64 ext request.key_scheme st)
          | (_, .error e) => .err e
      else
        match ext.decryptEddsa request.encrypted_local_key request.password with
        | none => .errDecryptKey
        | some lk =>
          match eddsaSign dprims state lk data (intToU16 request.party_id) 0 now with
          | (st, .ok _) => .ok (signingStateObjToBase64 ext request.key_scheme st)
          | (_, .error e) => .err e

/-- The dispatcher as the spec describes it: identical to `cSign` except
that the EdDSA arm selects the precomputed nonce entry with the nonce
*given in the request*.  This definition follows the spec's words, not the
source; it exists only to be compared with `cSign`. -/
def cSignSpec (eprims : EcdsaPrims) (dprims : EddsaPrims) (ext : ExtCodecs)
    (request : NativeSigningRequest) (now : String) : CSignResult :=
  match signingStateBase64ToObj ext request.state_base64 with
  | none => .panickedStateDecode
  | some state =>
    match ext.hexDecode request.hex_data with
    | none => .errHexDecode
    | some data =>
      if request.key_scheme = KeyScheme.ECDSA then
        match ext.decryptEcdsa request.encrypted_local_key request.password with
        | none => .errDecryptKey
        | some lk =>
          match gg20Sign eprims state lk data (intToU16 request.party_id)
              (request.signers.map intToU16) now with
          | (st, .ok _) => .ok (signingStateObjToBase64 ext request.key_scheme st)
          | (_, .error e) => .err e
      else
        match ext.decryptEddsa request.encrypted_local_key request.password with
        | none => .errDecryptKey
        | some lk =>
          match eddsaSign dprims state lk data (intToU16 request.party_id)
              request.nonce now with
          | (st, .ok _) => .ok (signingStateObjToBase64 ext request.key_scheme st)
          | (_, .error e) => .err e

/-! ## `wants_to_proceed` of the EdDSA round engines
(`t_ed25519/keygen.rs` and `t_ed25519/presignature.rs`)

The message stores come from the external `round_based` crate; the engine
only reads `wants_more()`, so a store is abstracted to that observation.
The round payloads (keypairs, commitment vectors, …) play no role in
`wants_to_proceed` and are elided from the round tags. -/

/-- A `round_based::containers::Store`, abstracted to its
`wants_more()` observation. -/
structure MsgStore where
  wants_more : Bool
deriving DecidableEq, Repr

/-- The round tag `R` of `EddsaKeygen` (payloads elided). -/
inductive KeygenR where
  | Round0
  | Round1
  | Round2
  | Final
  | Gone
deriving DecidableEq, Repr

/-- The `EddsaKeygen` state machine of `t_ed25519/keygen.rs`
(the fields `wants_to_proceed` reads, plus the party bookkeeping). -/
structure EddsaKeygenSM where
  round : KeygenR
  msgs1 : Option MsgStore
  msgs2 : Option MsgStore
  party_i : Nat
  party_n : Nat
deriving DecidableEq, Repr

/-- `wants_to_proceed` of `EddsaKeygen`, translated from the source. -/
def EddsaKeygenSM.wantsToProceed (self : EddsaKeygenSM) : Bool :=
  let store1_wants_more := (self.msgs1.map (fun s => s.wants_more)).getD false
  let store2_wants_more := (self.msgs2.map (fun s => s.wants_more)).getD false
  match self.round with
  | .Round0 => true
  | .Round1 => !store1_wants_more
  | .Round2 => !store2_wants_more
  | .Final => false
  | .Gone => false

/-- The round tag `R` of `EddsaOfflineGen` (payloads elided). -/
inductive OfflineR where
  | Round0
  | Round1
  | Round2
  | Final
  | Gone
deriving DecidableEq, Repr

/-- The `EddsaOfflineGen` state machine of `t_ed25519/presignature.rs`
(the fields `wants_to_proceed` reads, plus the party bookkeeping). -/
structure EddsaOfflineGenSM where
  round : OfflineR
  msgs1 : Option MsgStore
  msgs2 : Option MsgStore
  party_i : Nat
  party_n : Nat
deriving DecidableEq, Repr

/-- `wants_to_proceed` of `EddsaOfflineGen`, translated from the source. -/
def EddsaOfflineGenSM.wantsToProceed (self : EddsaOfflineGenSM) : Bool :=
  let store1_wants_more := (self.msgs1.map (fun s => s.wants_more)).getD false
  let store2_wants_more := (self.msgs2.map (fun s => s.wants_more)).getD false
  match self.round with
  | .Round0 => true
  | .Round1 => !store1_wants_more
  | .Round2 => !store2_wants_more
  | .Final => false
  | .Gone => false

/-- The observation the claim's phrase "the store no longer wants more
messages" denotes, exactly as the source computes it:
`msgs.as_ref().map(|s| s.wants_more()).unwrap_or(false)`. -/
def storeWantsMore (o : Option MsgStore) : Bool :=
  (o.map (fun s => s.wants_more)).getD false

/-! ## `powerset` (`utils/common.rs`) and the orchestrator's subset
enumeration (`all_keygen.rs`) -/

/-- The inner loop of `powerset`: `j` is the running index of
`s.iter().enumerate()`, and element `j` is pushed iff `(i >> j) & 1 == 1`. -/
def maskSubsetAux {α : Type} (i : Nat) : Nat → List α → List α
  | _, [] => []
  | j, x :: xs => (if (i >>> j) &&& 1 == 1 then [x] else []) ++ maskSubsetAux i (j + 1) xs

/-- The subset of `s` picked by bit mask `i`. -/
def maskSubset {α : Type} (s : List α) (i : Nat) : List α := maskSubsetAux i 0 s

/-- `powerset` of `utils/common.rs`: one subset per mask `i ∈ [0, 2^len)`. -/
def powerset {α : Type} (s : List α) : List (List α) :=
  (List.range (2 ^ s.length)).map (maskSubset s)

/-- The subset enumeration of `keygen_and_offline` (`all_keygen.rs`):
`powerset` of `(1..n+1).collect()` filtered to subsets of size `t+1` that
contain this party. -/
def allSubsetsParties (t n party_id : Nat) : List (List Nat) :=
  (powerset (List.range' 1 n)).filter
    (fun subset => subset.length == t + 1 && subset.contains party_id)

/-- The ECDSA offline loop of `keygen_and_offline`: for each enumerated
subset, sort it and run the offline protocol once (`runOffline` is the
oracle for the terminal output of `generate_offline_signing`), collecting
one `EcdsaOfflineResult` per subset. -/
def ecdsaOfflineCollect (runOffline : List Nat → CompletedOfflineStage)
    (t n party_id : Nat) : List EcdsaOfflineResult :=
  (allSubsetsParties t n party_id).map (fun parties =>
    let parties2 := parties.insertionSort (· ≤ ·)
    { parties := parties2, completed_offline := runOffline parties2 })

/-! ## The encryption envelope (`utils/encryption.rs`)

Rust strings are modelled as byte lists on the plaintext/password side and
as character lists on the envelope side.  The external crates (`sha2`,
`aes_gcm`, `base64`) enter twice: as the oracle bundle `AeadExt` for the
general claims, and as concrete reference implementations (below) for the
exact test-vector claim. -/

def digitChar (d : Nat) : Char := Char.ofNat (48 + d)

/-- helper of `natDecimal`: fuel-driven division loop, most significant
digit first. -/
def toDecimalAux : Nat → Nat → List Char
  | 0, _ => []
  | fuel + 1, n =>
    if n = 0 then [] else toDecimalAux fuel (n / 10) ++ [digitChar (n % 10)]

/-- the decimal rendering of a `u64`, as `format!("{}")` produces it. -/
def natDecimal (n : Nat) : List Char :=
  if n = 0 then ['0'] else toDecimalAux n n

def digitVal (c : Char) : Option Nat :=
  if 48 ≤ c.toNat ∧ c.toNat ≤ 57 then some (c.toNat - 48) else none

def digitsValAux : Option Nat → List Char → Option Nat
  | none, _ => none
  | some a, [] => some a
  | some a, c :: cs =>
    match digitVal c with
    | none => none
    | some d => digitsValAux (some (a * 10 + d)) cs

/-- `str::parse::<u64>` on a digit string: rejects the empty string,
non-digits and values ≥ 2^64 (the sources never render a sign, so the sign
handling of the Rust parser is irrelevant here). -/
def parseU64 (cs : List Char) : Option Nat :=
  if cs = [] then none
  else
    match digitsValAux (some 0) cs with
    | none => none
    | some v => if v < USIZEMOD then some v else none

/-- Modelled from the spec: UTF-8 validity as `String::from_utf8` (Rust
std, external) checks it — the standard table of well-formed byte
sequences. -/
def utf8Cont (b : Nat) : Bool := 128 ≤ b && b ≤ 191

def utf8Valid : List Nat → Bool
  | [] => true
  | b :: rest =>
    if b ≤ 127 then utf8Valid rest
    else if 194 ≤ b && b ≤ 223 then
      match rest with
      | c1 :: r => utf8Cont c1 && utf8Valid r
      | [] => false
    else if b = 224 then
      match rest with
      | c1 :: c2 :: r => (160 ≤ c1 && c1 ≤ 191) && (utf8Cont c2 && utf8Valid r)
      | _ => false
    else if (225 ≤ b && b ≤ 236) || b = 238 || b = 239 then
      match rest with
      | c1 :: c2 :: r => utf8Cont c1 && (utf8Cont c2 && utf8Valid r)
      | _ => false
    else if b = 237 then
      match rest with
      | c1 :: c2 :: r => (128 ≤ c1 && c1 ≤ 159) && (utf8Cont c2 && utf8Valid r)
      | _ => false
    else if b = 240 then
      match rest with
      | c1 :: c2 :: c3 :: r => (144 ≤ c1 && c1 ≤ 191) && (utf8Cont c2 && (utf8Cont c3 && utf8Valid r))
      | _ => false
    else if 241 ≤ b && b ≤ 243 then
      match rest with
      | c1 :: c2 :: c3 :: r => utf8Cont c1 && (utf8Cont c2 && (utf8Cont c3 && utf8Valid r))
      | _ => false
    else if b = 244 then
      match rest with
      | c1 :: c2 :: c3 :: r => (128 ≤ c1 && c1 ≤ 143) && (utf8Cont c2 && (utf8Cont c3 && utf8Valid r))
      | _ => false
    else false

/-- `split(":").next()`: the segment before the first colon. -/
def splitColonFirst (cs : List Char) : List Char := cs.takeWhile (fun c => c != ':')

/-- the second `split(":").next()`: `none` when the string has no colon
(in which case the source's `expect("cipher not found")` panics). -/
def splitColonSecond (cs : List Char) : Option (List Char) :=
  match cs.dropWhile (fun c => c != ':') with
  | [] => none
  | _ :: rest => some (rest.takeWhile (fun c => c != ':'))

/-- Oracles for the external crates `utils/encryption.rs` drives:
`sha256` (the `sha2` crate, password bytes to 32-byte key), the AES-256-GCM
`encrypt`/`decrypt` of the `aes_gcm` crate (operating on key, 12-byte IV and
payload; `none` = `Err`), and the `base64` crate's standard alphabet
encode/decode. -/
structure AeadExt where
  sha256 : List Nat → List Nat
  aeadEncrypt : List Nat → List Nat → List Nat → Option (List Nat)
  aeadDecrypt : List Nat → List Nat → List Nat → Option (List Nat)
  b64encode : List Nat → List Char
  b64decode : List Char → Option (List Nat)

/-- `derive_iv_from_nonce`: a 12-byte IV, four zero bytes followed by the
big-endian `u64` encoding of the nonce
(`iv[4..].copy_from_slice(&nonce.to_be_bytes())`). -/
def derive_iv_from_nonce (nonce : Nat) : List Nat :=
  [0, 0, 0, 0] ++ (List.range 8).map (fun i => nonce / 256 ^ (8 - 1 - i) % 256)

/-- `encrypt_with_nonce` of `utils/encryption.rs`: key = SHA-256(password),
IV from the nonce, AES-256-GCM, envelope `format!("{}:{}", nonce, base64)`.
Rust strings are modelled as their byte lists (`p`, `pw`); the envelope is a
character list. -/
def encryptWithNonce (E : AeadExt) (plaintext pw : List Nat) (nonce : Nat) :
    Option (List Char) :=
  match E.aeadEncrypt (E.sha256 pw) (derive_iv_from_nonce nonce) plaintext with
  | none => none
  | some encrypted => some (natDecimal nonce ++ ':' :: E.b64encode encrypted)

/-- Result of `decrypt` / `decrypt_with_nonce`; `panickedNoCipher` is the
`expect("cipher not found")` panic on an envelope without a colon. -/
inductive DecryptResult where
  | ok (p : List Nat)
  | errParseNonce
  | errB64
  | errAead
  | errUtf8
  | panickedNoCipher
deriving DecidableEq, Repr

/-- `decrypt_with_nonce` of `utils/encryption.rs`. -/
def decryptWithNonce (E : AeadExt) (ciphertext : List Char) (pw : List Nat)
    (nonce : Nat) : DecryptResult :=
  match E.b64decode ciphertext with
  | none => .errB64
  | some ct =>
    match E.aeadDecrypt (E.sha256 pw) (derive_iv_from_nonce nonce) ct with
    | none => .errAead
    | some decrypted =>
      if utf8Valid decrypted then .ok decrypted else .errUtf8

/-- `decrypt` of `utils/encryption.rs`: split at `:`, parse the nonce,
delegate. -/
def decrypt (E : AeadExt) (ciphertext : List Char) (pw : List Nat) : DecryptResult :=
  match parseU64 (splitColonFirst ciphertext) with
  | none => .errParseNonce
  | some nonce =>
    match splitColonSecond ciphertext with
    | none => .panickedNoCipher
    | some ct => decryptWithNonce E ct pw nonce

/-- A minimal injective colon-free serialization of byte lists (used to
instantiate the abstract base64 parameter in concrete witnesses). -/
def unaryEncode : List Nat → List Char
  | [] => []
  | n :: ns => List.replicate n 'a' ++ ';' :: unaryEncode ns

def unaryDecode : List Char → Option (List Nat)
  | [] => some []
  | ';' :: rest => (unaryDecode rest).map (fun ns => 0 :: ns)
  | 'a' :: rest =>
    match unaryDecode rest with
    | some (n :: ns) => some ((n + 1) :: ns)
    | _ => none
  | _ :: _ => none


/-! ## Concrete reference implementations of the external crypto
(SHA-256, AES-256-GCM, standard base64), used to evaluate the envelope on
the spec's literal test vector. -/

def xorBytes (a b : List Nat) : List Nat := List.zipWith (fun x y => x ^^^ y) a b

/-- big-endian rendering of `n` on `w` bytes. -/
def beBytes (w n : Nat) : List Nat := (List.range w).map (fun i => n / 256 ^ (w - 1 - i) % 256)

/-- big-endian value of a byte string. -/
def beToNat (bs : List Nat) : Nat := bs.foldl (fun a b => a * 256 + b) 0

def sbox : List Nat := [
  99, 124, 119, 123, 242, 107, 111, 197, 48, 1, 103, 43,
  254, 215, 171, 118, 202, 130, 201, 125, 250, 89, 71, 240,
  173, 212, 162, 175, 156, 164, 114, 192, 183, 253, 147, 38,
  54, 63, 247, 204, 52, 165, 229, 241, 113, 216, 49, 21,
  4, 199, 35, 195, 24, 150, 5, 154, 7, 18, 128, 226,
  235, 39, 178, 117, 9, 131, 44, 26, 27, 110, 90, 160,
  82, 59, 214, 179, 41, 227, 47, 132, 83, 209, 0, 237,
  32, 252, 177, 91, 106, 203, 190, 57, 74, 76, 88, 207,
  208, 239, 170, 251, 67, 77, 51, 133, 69, 249, 2, 127,
  80, 60, 159, 168, 81, 163, 64, 143, 146, 157, 56, 245,
  188, 182, 218, 33, 16, 255, 243, 210, 205, 12, 19, 236,
  95, 151, 68, 23, 196, 167, 126, 61, 100, 93, 25, 115,
  96, 129, 79, 220, 34, 42, 144, 136, 70, 238, 184, 20,
  222, 94, 11, 219, 224, 50, 58, 10, 73, 6, 36, 92,
  194, 211, 172, 98, 145, 149, 228, 121, 231, 200, 55, 109,
  141, 213, 78, 169, 108, 86, 244, 234, 101, 122, 174, 8,
  186, 120, 37, 46, 28, 166, 180, 198, 232, 221, 116, 31,
  75, 189, 139, 138, 112, 62, 181, 102, 72, 3, 246, 14,
  97, 53, 87, 185, 134, 193, 29, 158, 225, 248, 152, 17,
  105, 217, 142, 148, 155, 30, 135, 233, 206, 85, 40, 223,
  140, 161, 137, 13, 191, 230, 66, 104, 65, 153, 45, 15,
  176, 84, 187, 22]

def shaK : List Nat := [
  1116352408, 1899447441, 3049323471, 3921009573, 961987163, 1508970993, 2453635748, 2870763221,
  3624381080, 310598401, 607225278, 1426881987, 1925078388, 2162078206, 2614888103, 3248222580,
  3835390401, 4022224774, 264347078, 604807628, 770255983, 1249150122, 1555081692, 1996064986,
  2554220882, 2821834349, 2952996808, 3210313671, 3336571891, 3584528711, 113926993, 338241895,
  666307205, 773529912, 1294757372, 1396182291, 1695183700, 1986661051, 2177026350, 2456956037,
  2730485921, 2820302411, 3259730800, 3345764771, 3516065817, 3600352804, 4094571909, 275423344,
  430227734, 506948616, 659060556, 883997877, 958139571, 1322822218, 1537002063, 1747873779,
  1955562222, 2024104815, 2227730452, 2361852424, 2428436474, 2756734187, 3204031479, 3329325298]

def shaH0 : List Nat := [
  1779033703, 3144134277, 1013904242, 2773480762, 1359893119, 2600822924, 528734635, 1541459225]


def sboxAt (b : Nat) : Nat := sbox.getD b 0

def rcon : List Nat := [1, 2, 4, 8, 16, 32, 64, 128, 27, 54, 108]

def subWord (w : List Nat) : List Nat := w.map sboxAt

def rotWord (w : List Nat) : List Nat := w.drop 1 ++ w.take 1

/-- AES-256 key schedule: 60 four-byte words from the 32-byte key. -/
def keyExpansion (key : List Nat) : List (List Nat) :=
  let w0 : List (List Nat) := (List.range 8).map (fun i => (key.drop (4 * i)).take 4)
  (List.range 52).foldl (fun w idx =>
    let i := idx + 8
    let prev := w.getD (i - 1) []
    let t :=
      if i % 8 == 0 then
        xorBytes (subWord (rotWord prev)) [rcon.getD (i / 8 - 1) 0, 0, 0, 0]
      else if i % 8 == 4 then subWord prev
      else prev
    w ++ [xorBytes (w.getD (i - 8) []) t]) w0

def roundKey (w : List (List Nat)) (r : Nat) : List Nat :=
  w.getD (4 * r) [] ++ w.getD (4 * r + 1) [] ++ w.getD (4 * r + 2) [] ++ w.getD (4 * r + 3) []

def subBytes (state : List Nat) : List Nat := state.map sboxAt

/-- column-major state: byte `4*col+row`. -/
def shiftRows (state : List Nat) : List Nat :=
  (List.range 16).map (fun idx =>
    state.getD (4 * ((idx / 4 + idx % 4) % 4) + idx % 4) 0)

def xtime (b : Nat) : Nat :=
  let b2 := 2 * b
  if b2 >= 256 then (b2 % 256) ^^^ 27 else b2

def mixColumn (a : List Nat) : List Nat :=
  let a0 := a.getD 0 0
  let a1 := a.getD 1 0
  let a2 := a.getD 2 0
  let a3 := a.getD 3 0
  [xtime a0 ^^^ (xtime a1 ^^^ a1) ^^^ a2 ^^^ a3,
   a0 ^^^ xtime a1 ^^^ (xtime a2 ^^^ a2) ^^^ a3,
   a0 ^^^ a1 ^^^ xtime a2 ^^^ (xtime a3 ^^^ a3),
   (xtime a0 ^^^ a0) ^^^ a1 ^^^ a2 ^^^ xtime a3]

def mixColumns (state : List Nat) : List Nat :=
  mixColumn (state.take 4) ++ mixColumn ((state.drop 4).take 4) ++
  mixColumn ((state.drop 8).take 4) ++ mixColumn ((state.drop 12).take 4)

/-- one AES-256 block encryption (14 rounds). -/
def aesEncryptBlock (w : List (List Nat)) (block : List Nat) : List Nat :=
  let s0 := xorBytes block (roundKey w 0)
  let sMain := (List.range 13).foldl (fun st r =>
    xorBytes (mixColumns (shiftRows (subBytes st))) (roundKey w (r + 1))) s0
  xorBytes (shiftRows (subBytes sMain)) (roundKey w 14)

/-- GF(2^128) multiplication per NIST SP 800-38D (big-endian bit order). -/
def gf128mul (X Y : Nat) : Nat :=
  ((List.range 128).foldl (fun ZV i =>
    let Z := if (X >>> (127 - i)) &&& 1 == 1 then ZV.1 ^^^ ZV.2 else ZV.1
    let V := if ZV.2 &&& 1 == 1 then (ZV.2 >>> 1) ^^^ (225 * 2 ^ 120) else ZV.2 >>> 1
    (Z, V)) ((0 : Nat), Y)).1

def chunksAux : Nat → List Nat → List (List Nat)
  | 0, _ => []
  | _, [] => []
  | fuel + 1, l => l.take 16 :: chunksAux fuel (l.drop 16)

def chunk16 (l : List Nat) : List (List Nat) := chunksAux l.length l

def ghash (H : Nat) (data : List Nat) : Nat :=
  (chunk16 data).foldl (fun Y blk => gf128mul (Y ^^^ beToNat blk) H) 0

def padTo16 (l : List Nat) : List Nat :=
  l ++ List.replicate ((16 - l.length % 16) % 16) 0

/-- AES-256-GCM encryption with a 12-byte IV, output `ciphertext ++ tag`,
as the `aes_gcm` crate computes it for `Aes256Gcm`. -/
def aesGcmEncrypt (key iv pt : List Nat) : List Nat :=
  let w := keyExpansion key
  let H := beToNat (aesEncryptBlock w (List.replicate 16 0))
  let J0 := iv ++ [0, 0, 0, 1]
  let ctr := beToNat J0
  let ct := ((chunk16 pt).enum.map (fun ic =>
    let ctrInc := ctr / 4294967296 * 4294967296 + (ctr + 1 + ic.1) % 4294967296
    xorBytes ic.2 (aesEncryptBlock w (beBytes 16 ctrInc)))).foldl (fun a x => a ++ x) []
  let S := ghash H (padTo16 ct ++ beBytes 8 0 ++ beBytes 8 (8 * ct.length))
  ct ++ beBytes 16 (S ^^^ beToNat (aesEncryptBlock w J0))

/-- AES-256-GCM decryption: split off the 16-byte tag, recompute it, and
CTR-decrypt on a match. -/
def aesGcmDecrypt (key iv ctWithTag : List Nat) : Option (List Nat) :=
  if ctWithTag.length < 16 then none
  else
    let ct := ctWithTag.take (ctWithTag.length - 16)
    let tag := ctWithTag.drop (ctWithTag.length - 16)
    let w := keyExpansion key
    let H := beToNat (aesEncryptBlock w (List.replicate 16 0))
    let J0 := iv ++ [0, 0, 0, 1]
    let ctr := beToNat J0
    let S := ghash H (padTo16 ct ++ beBytes 8 0 ++ beBytes 8 (8 * ct.length))
    if tag == beBytes 16 (S ^^^ beToNat (aesEncryptBlock w J0)) then
      some (((chunk16 ct).enum.map (fun ic =>
        let ctrInc := ctr / 4294967296 * 4294967296 + (ctr + 1 + ic.1) % 4294967296
        xorBytes ic.2 (aesEncryptBlock w (beBytes 16 ctrInc)))).foldl (fun a x => a ++ x) [])
    else none

def chunks64Aux : Nat → List Nat → List (List Nat)
  | 0, _ => []
  | _, [] => []
  | fuel + 1, l => l.take 64 :: chunks64Aux fuel (l.drop 64)

def chunk64 (l : List Nat) : List (List Nat) := chunks64Aux l.length l

def rotr32 (n x : Nat) : Nat := ((x >>> n) ||| (x <<< (32 - n))) % 4294967296

/-- SHA-256 of a byte string. -/
def sha256 (msg : List Nat) : List Nat :=
  let padded := msg ++ 128 :: List.replicate ((119 - msg.length % 64) % 64) 0 ++
    beBytes 8 (8 * msg.length)
  let final := (chunk64 padded).foldl (fun hs blk =>
    let w16 := (List.range 16).map (fun i => beToNat ((blk.drop (4 * i)).take 4))
    let ws := (List.range 48).foldl (fun ws idx =>
      let i := idx + 16
      let s0 := rotr32 7 (ws.getD (i - 15) 0) ^^^ rotr32 18 (ws.getD (i - 15) 0) ^^^
        (ws.getD (i - 15) 0 >>> 3)
      let s1 := rotr32 17 (ws.getD (i - 2) 0) ^^^ rotr32 19 (ws.getD (i - 2) 0) ^^^
        (ws.getD (i - 2) 0 >>> 10)
      ws ++ [(ws.getD (i - 16) 0 + s0 + ws.getD (i - 7) 0 + s1) % 4294967296]) w16
    let st := (List.range 64).foldl (fun st i =>
      let a := st.getD 0 0
      let b := st.getD 1 0
      let c := st.getD 2 0
      let d := st.getD 3 0
      let e := st.getD 4 0
      let f := st.getD 5 0
      let g := st.getD 6 0
      let h := st.getD 7 0
      let S1 := rotr32 6 e ^^^ rotr32 11 e ^^^ rotr32 25 e
      let ch := (e &&& f) ^^^ ((e ^^^ 4294967295) &&& g)
      let t1 := (h + S1 + ch + shaK.getD i 0 + ws.getD i 0) % 4294967296
      let S0 := rotr32 2 a ^^^ rotr32 13 a ^^^ rotr32 22 a
      let maj := (a &&& b) ^^^ (a &&& c) ^^^ (b &&& c)
      let t2 := (S0 + maj) % 4294967296
      [(t1 + t2) % 4294967296, a, b, c, (d + t1) % 4294967296, e, f, g]) hs
    List.zipWith (fun x y => (x + y) % 4294967296) hs st) shaH0
  (final.map (beBytes 4)).foldl (fun a x => a ++ x) []

/-- the standard base64 alphabet. -/
def b64table : List Char :=
  "ABCDEFGHIJKLMNOPQRSTUVWXYZabcdefghijklmnopqrstuvwxyz0123456789+/".data

def b64charAt (i : Nat) : Char := b64table.getD i 'A'

/-- base64 (standard alphabet, with padding) of a byte string, as
`general_purpose::STANDARD.encode` produces it. -/
def base64Encode : List Nat → List Char
  | [] => []
  | [a] => [b64charAt (a / 4), b64charAt (a % 4 * 16), '=', '=']
  | [a, b] => [b64charAt (a / 4), b64charAt (a % 4 * 16 + b / 16), b64charAt (b % 16 * 4), '=']
  | a :: b :: c :: rest =>
    b64charAt (a / 4) :: b64charAt (a % 4 * 16 + b / 16) ::
    b64charAt (b % 16 * 4 + c / 64) :: b64charAt (c % 64) :: base64Encode rest

def b64val (c : Char) : Option Nat :=
  match b64table.indexOf? c with
  | some i => some i
  | none => none

/-- base64 decoding (standard alphabet, strict padding). -/
def base64Decode : List Char → Option (List Nat)
  | [] => some []
  | [c0, c1, '=', '='] => do
    let v0 ← b64val c0
    let v1 ← b64val c1
    if v1 % 16 == 0 then some [v0 * 4 + v1 / 16] else none
  | [c0, c1, c2, '='] => do
    let v0 ← b64val c0
    let v1 ← b64val c1
    let v2 ← b64val c2
    if v2 % 4 == 0 then some [v0 * 4 + v1 / 16, v1 % 16 * 16 + v2 / 4] else none
  | c0 :: c1 :: c2 :: c3 :: rest => do
    let v0 ← b64val c0
    let v1 ← b64val c1
    let v2 ← b64val c2
    let v3 ← b64val c3
    let tail ← base64Decode rest
    some ((v0 * 4 + v1 / 16) :: (v1 % 16 * 16 + v2 / 4) :: (v2 % 4 * 64 + v3) :: tail)
  | _ => none


/-- The concrete instantiation of the external primitives:  SHA-256,
AES-256-GCM (whose `encrypt` never fails), standard base64. -/
def realAead : AeadExt :=
  { sha256 := sha256
    aeadEncrypt := fun k iv pt => some (aesGcmEncrypt k iv pt)
    aeadDecrypt := aesGcmDecrypt
    b64encode := base64Encode
    b64decode := base64Decode }

/-- A degenerate instantiation of the external primitives (identity AEAD,
unary serialization); it satisfies the black-box contracts and is used to
exercise theorems with hypotheses on concrete inputs. -/
def toyAead : AeadExt :=
  { sha256 := fun _ => []
    aeadEncrypt := fun _ _ pt => some pt
    aeadDecrypt := fun _ _ c => some c
    b64encode := unaryEncode
    b64decode := unaryDecode }


instance : DecidableEq (Except SignErr Unit) := fun a b =>
  match a, b with
  | .ok (), .ok () => isTrue rfl
  | .error x, .error y =>
    if h : x = y then isTrue (by rw [h]) else isFalse (by simp [h])
  | .ok _, .error _ => isFalse (by simp)
  | .error _, .ok _ => isFalse (by simp)

/-! ## Concrete fixtures used by witnesses and counterexamples -/

/-- A trivial EdDSA primitive bundle (all checks succeed). -/
def toyEddsaPrims : EddsaPrims :=
  { compute := fun _ share _ => ⟨share⟩
    verifyLocalSigs := fun _ _ _ _ => some 0
    generate := fun _ _ _ _ => ⟨"r", "s"⟩
    verify := fun _ _ _ => true }

/-- An EdDSA primitive bundle whose local-signature verification fails. -/
def toyEddsaPrimsReject : EddsaPrims :=
  { toyEddsaPrims with verifyLocalSigs := fun _ _ _ _ => none }

/-- A trivial ECDSA primitive bundle (all steps succeed). -/
def toyEcdsaPrims : EcdsaPrims :=
  { signManualNew := fun _ _ => some (⟨0⟩, ⟨0⟩)
    complete := fun _ _ => some ⟨"r", "s", 0⟩
    publicKey := fun _ => 0
    verify := fun _ _ _ => true }

/-- An EdDSA key fixture for party 1 of a 1-of-3 wallet, parameterized by
the nonce window of its offline data. -/
def fxEddsaKey (start size : Nat) (entries : List EddsaOffline) : EddsaLocalKeyData :=
  { local_key := ⟨0, [], 0, 1, 1, 3⟩
    offline_data := ⟨[1, 2, 3], start, size, entries⟩
    algorithm := "t_ed25519" }



/-- A serialization-oracle fixture: the partial encoder distinguishes the
EdDSA partial derived from nonce entry 0 (share 5) from the one derived
from entry 1 (share 6); decryption yields an EdDSA key whose offline window
starts at 0 with those two entries. -/
def toyExtCodecs : ExtCodecs :=
  { encodePart := fun p =>
      match p with
      | .EDDSA q => if q.val == 5 then "five" else "other"
      | .ECDSA _ => "x"
    decodeEcdsaPart := fun _ => some ⟨0⟩
    decodeEddsaPart := fun _ => some ⟨0⟩
    hexDecode := fun _ => some [1]
    decryptEcdsa := fun _ _ => none
    decryptEddsa := fun _ _ => some (fxEddsaKey 0 2 [⟨[], 5, 0⟩, ⟨[], 6, 0⟩]) }

/-- An EDDSA signing request fixture asking for nonce 1. -/
def fxSignRequest : NativeSigningRequest :=
  { key_scheme := KeyScheme.EDDSA
    state_base64 := ⟨1, 3, KeyScheme.EDDSA, none, []⟩
    encrypted_local_key := "enc"
    password := "pw"
    hex_data := "01"
    party_id := 1
    signers := []
    nonce := 1 }

/-! # Theorems -/

variable {α : Type}

theorem maskSubsetAux_shift (i : Nat) (xs : List α) :
    ∀ j, maskSubsetAux i (j + 1) xs = maskSubsetAux (i >>> 1) j xs := by
  induction xs with
  | nil => intro j; rfl
  | cons x xs ih =>
    intro j
    show (if (i >>> (j + 1)) &&& 1 == 1 then [x] else []) ++ maskSubsetAux i (j + 1 + 1) xs =
      (if ((i >>> 1) >>> j) &&& 1 == 1 then [x] else []) ++ maskSubsetAux (i >>> 1) (j + 1) xs
    have hc : i >>> (j + 1) = (i >>> 1) >>> j := by
      rw [Nat.add_comm j 1, Nat.shiftRight_add]
    rw [hc, ih (j + 1)]

theorem maskSubset_nil (i : Nat) : maskSubset ([] : List α) i = [] := rfl

theorem maskSubset_cons (x : α) (xs : List α) (i : Nat) :
    maskSubset (x :: xs) i =
      (if i &&& 1 == 1 then [x] else []) ++ maskSubset xs (i >>> 1) := by
  show (if (i >>> 0) &&& 1 == 1 then [x] else []) ++ maskSubsetAux i (0 + 1) xs = _
  rw [Nat.shiftRight_zero, maskSubsetAux_shift]
  rfl

theorem maskSubset_sublist (s : List α) (i : Nat) : (maskSubset s i).Sublist s := by
  induction s generalizing i with
  | nil => simp [maskSubset_nil]
  | cons x xs ih =>
    rw [maskSubset_cons]
    by_cases h : (i &&& 1 == 1 : Bool) = true
    · rw [if_pos h]
      exact (ih (i >>> 1)).cons₂ x
    · rw [if_neg h, List.nil_append]
      exact (ih (i >>> 1)).cons x

theorem maskSubset_low (s : List α) (y : α) (i : Nat) (h : i < 2 ^ s.length) :
    maskSubset (s ++ [y]) i = maskSubset s i := by
  induction s generalizing i with
  | nil =>
    simp only [List.length_nil, pow_zero, Nat.lt_one_iff] at h
    subst h
    rfl
  | cons x xs ih =>
    rw [List.cons_append, maskSubset_cons, maskSubset_cons]
    have hlt : i >>> 1 < 2 ^ xs.length := by
      rw [Nat.shiftRight_eq_div_pow, pow_one]
      rw [List.length_cons, pow_succ] at h
      omega
    rw [ih _ hlt]

theorem maskSubset_high (s : List α) (y : α) (i : Nat) (h : i < 2 ^ s.length) :
    maskSubset (s ++ [y]) (2 ^ s.length + i) = maskSubset s i ++ [y] := by
  induction s generalizing i with
  | nil =>
    simp only [List.length_nil, pow_zero, Nat.lt_one_iff] at h
    subst h
    have h1 : 2 ^ ([] : List α).length + 0 = 1 := by simp
    rw [h1, List.nil_append, maskSubset_cons]
    have h2 : (((1 : Nat) &&& 1 == 1) : Bool) = true := by decide
    rw [if_pos h2, maskSubset_nil, maskSubset_nil, List.nil_append]
    rfl
  | cons x xs ih =>
    rw [List.cons_append, maskSubset_cons, maskSubset_cons]
    have hpar : (2 ^ (x :: xs).length + i) &&& 1 = i &&& 1 := by
      rw [Nat.and_one_is_mod, Nat.and_one_is_mod, List.length_cons, pow_succ]
      omega
    have hshift : (2 ^ (x :: xs).length + i) >>> 1 = 2 ^ xs.length + i >>> 1 := by
      rw [Nat.shiftRight_eq_div_pow, Nat.shiftRight_eq_div_pow, List.length_cons, pow_succ]
      simp only [pow_one]
      omega
    have hlt : i >>> 1 < 2 ^ xs.length := by
      rw [Nat.shiftRight_eq_div_pow, pow_one]
      rw [List.length_cons, pow_succ] at h
      omega
    rw [hpar, hshift, ih _ hlt, List.append_assoc]

theorem powerset_nil : powerset ([] : List α) = [[]] := rfl

theorem powerset_concat (s : List α) (y : α) :
    powerset (s ++ [y]) = powerset s ++ (powerset s).map (fun l => l ++ [y]) := by
  unfold powerset
  rw [List.length_append, List.length_singleton, pow_succ, Nat.mul_two, List.range_add,
    List.map_append, List.map_map, List.map_map]
  congr 1
  · exact List.map_congr_left (fun i hi => maskSubset_low s y i (List.mem_range.mp hi))
  · exact List.map_congr_left (fun i hi => maskSubset_high s y i (List.mem_range.mp hi))

theorem mem_powerset_of_sublist {l s : List α} (h : l.Sublist s) : l ∈ powerset s := by
  induction h with
  | slnil => exact List.mem_singleton.mpr rfl
  | @cons l₁ l₂ a h ih =>
    rcases List.mem_map.mp ih with ⟨i, hi, hrfl⟩
    refine List.mem_map.mpr ⟨2 * i, List.mem_range.mpr ?_, ?_⟩
    · have := List.mem_range.mp hi
      simp only [List.length_cons, pow_succ]
      omega
    · rw [maskSubset_cons]
      have h1 : (2 * i) &&& 1 = 0 := by
        rw [Nat.and_one_is_mod]
        omega
      have h2 : (2 * i) >>> 1 = i := by
        rw [Nat.shiftRight_eq_div_pow, pow_one]
        omega
      rw [h1, h2]
      simpa using hrfl
  | @cons₂ l₁ l₂ a h ih =>
    rcases List.mem_map.mp ih with ⟨i, hi, hrfl⟩
    refine List.mem_map.mpr ⟨2 * i + 1, List.mem_range.mpr ?_, ?_⟩
    · have := List.mem_range.mp hi
      simp only [List.length_cons, pow_succ]
      omega
    · rw [maskSubset_cons]
      have h1 : (2 * i + 1) &&& 1 = 1 := by
        rw [Nat.and_one_is_mod]
        omega
      have h2 : (2 * i + 1) >>> 1 = i := by
        rw [Nat.shiftRight_eq_div_pow, pow_one]
        omega
      rw [h1, h2]
      simpa using hrfl

theorem sublist_of_mem_powerset {l s : List α} (h : l ∈ powerset s) : l.Sublist s := by
  rcases List.mem_map.mp h with ⟨i, _, hrfl⟩
  exact hrfl ▸ maskSubset_sublist s i

theorem maskSubset_injOn (s : List α) (hs : s.Nodup) :
    ∀ i, i < 2 ^ s.length → ∀ j, j < 2 ^ s.length → maskSubset s i = maskSubset s j → i = j := by
  induction s with
  | nil =>
    intro i hi j hj _
    simp only [List.length_nil, pow_zero, Nat.lt_one_iff] at hi hj
    omega
  | cons x xs ih =>
    intro i hi j hj heq
    rw [List.nodup_cons] at hs
    rw [maskSubset_cons, maskSubset_cons] at heq
    have hxmem : ∀ k, x ∉ maskSubset xs k := fun k hk =>
      hs.1 ((maskSubset_sublist xs k).mem hk)
    have hi' : i >>> 1 < 2 ^ xs.length := by
      rw [Nat.shiftRight_eq_div_pow, pow_one]
      rw [List.length_cons, pow_succ] at hi
      omega
    have hj' : j >>> 1 < 2 ^ xs.length := by
      rw [Nat.shiftRight_eq_div_pow, pow_one]
      rw [List.length_cons, pow_succ] at hj
      omega
    have hio : i &&& 1 = 0 ∨ i &&& 1 = 1 := by rw [Nat.and_one_is_mod]; omega
    have hjo : j &&& 1 = 0 ∨ j &&& 1 = 1 := by rw [Nat.and_one_is_mod]; omega
    have h2i : i = 2 * (i >>> 1) + (i &&& 1) := by
      rw [Nat.shiftRight_eq_div_pow, pow_one, Nat.and_one_is_mod]
      omega
    have h2j : j = 2 * (j >>> 1) + (j &&& 1) := by
      rw [Nat.shiftRight_eq_div_pow, pow_one, Nat.and_one_is_mod]
      omega
    have key : i >>> 1 = j >>> 1 ∧ i &&& 1 = j &&& 1 := by
      rcases hio with hi1 | hi1 <;> rcases hjo with hj1 | hj1 <;> rw [hi1, hj1] at heq
      · simp only [show (((0 : Nat) == 1) : Bool) = false from rfl, Bool.false_eq_true,
          if_false, List.nil_append] at heq
        exact ⟨ih hs.2 _ hi' _ hj' heq, by omega⟩
      · simp only [show (((0 : Nat) == 1) : Bool) = false from rfl,
          show (((1 : Nat) == 1) : Bool) = true from rfl, Bool.false_eq_true,
          if_false, if_true, List.nil_append, List.singleton_append] at heq
        exact absurd (heq ▸ List.mem_cons_self x (maskSubset xs (j >>> 1)))
          (hxmem (i >>> 1))
      · simp only [show (((0 : Nat) == 1) : Bool) = false from rfl,
          show (((1 : Nat) == 1) : Bool) = true from rfl, Bool.false_eq_true,
          if_false, if_true, List.nil_append, List.singleton_append] at heq
        exact absurd (heq.symm ▸ List.mem_cons_self x (maskSubset xs (i >>> 1)))
          (hxmem (j >>> 1))
      · simp only [show (((1 : Nat) == 1) : Bool) = true from rfl, if_true,
          List.singleton_append, List.cons.injEq, true_and] at heq
        exact ⟨ih hs.2 _ hi' _ hj' heq, by omega⟩
    omega

theorem powerset_nodup (s : List α) (hs : s.Nodup) : (powerset s).Nodup := by
  unfold powerset
  refine (List.nodup_range _).map_on ?_
  intro i hi j hj heq
  exact maskSubset_injOn s hs i (List.mem_range.mp hi) j (List.mem_range.mp hj) heq


theorem countP_powerset_length (s : List Nat) :
    ∀ k, (powerset s).countP (fun l => l.length == k) = Nat.choose s.length k := by
  induction s using List.reverseRecOn with
  | nil =>
    intro k
    cases k with
    | zero => rfl
    | succ k => rfl
  | append_singleton s y ih =>
    intro k
    rw [powerset_concat, List.countP_append, ih, List.countP_map]
    have hsec : (powerset s).countP
        ((fun l => l.length == k) ∘ (fun l => l ++ [y])) =
        (powerset s).countP (fun l => l.length + 1 == k) := by
      refine List.countP_congr (fun l _ => ?_)
      simp [Function.comp]
    rw [hsec]
    cases k with
    | zero =>
      have hz : (powerset s).countP (fun l => l.length + 1 == 0) = 0 := by
        refine List.countP_eq_zero.mpr (fun l _ => ?_)
        simp
      rw [hz]
      simp [List.length_append]
    | succ k =>
      have hk : (powerset s).countP (fun l => l.length + 1 == k + 1) =
          (powerset s).countP (fun l => l.length == k) := by
        refine List.countP_congr (fun l _ => ?_)
        simp
      rw [hk, ih k, List.length_append]
      simp [Nat.choose_succ_succ, Nat.add_comm]

theorem countP_powerset_len_mem (a : Nat) (s : List Nat) :
    ∀ k, a ∈ s → s.Nodup → 1 ≤ k →
      (powerset s).countP (fun l => l.length == k && l.contains a) =
        Nat.choose (s.length - 1) (k - 1) := by
  induction s using List.reverseRecOn with
  | nil =>
    intro k ha _ _
    exact absurd ha (List.not_mem_nil a)
  | append_singleton s y ih =>
    intro k ha hnd hk
    have hnd' : s.Nodup ∧ y ∉ s := by
      rw [List.nodup_append] at hnd
      refine ⟨hnd.1, fun hy => hnd.2.2 hy (List.mem_singleton.mpr rfl)⟩
    obtain ⟨k', rfl⟩ : ∃ k', k = k' + 1 := ⟨k - 1, by omega⟩
    rw [powerset_concat, List.countP_append, List.countP_map]
    rcases List.mem_append.mp ha with has | hay
    · -- a ∈ s, hence a ≠ y
      have hay : a ≠ y := fun h => hnd'.2 (h ▸ has)
      have hslen : 1 ≤ s.length := List.length_pos.mpr (fun h => by simp [h] at has)
      have hfirst : (powerset s).countP (fun l => l.length == k' + 1 && l.contains a) =
          Nat.choose (s.length - 1) k' := ih (k' + 1) has hnd'.1 (by omega)
      have hsec : (powerset s).countP
          ((fun l => l.length == k' + 1 && l.contains a) ∘ (fun l => l ++ [y])) =
          (powerset s).countP (fun l => l.length == k' && l.contains a) := by
        refine List.countP_congr (fun l _ => ?_)
        simp only [Function.comp, List.length_append, List.length_singleton,
          List.elem_eq_mem, List.mem_append, List.mem_singleton,
          Bool.and_eq_true, beq_iff_eq, decide_eq_true_eq]
        constructor
        · rintro ⟨h1, h2 | h2⟩
          · exact ⟨by omega, h2⟩
          · exact absurd h2 hay
        · rintro ⟨h1, h2⟩
          exact ⟨by omega, Or.inl h2⟩
      rw [hfirst, hsec]
      cases k' with
      | zero =>
        have hz : (powerset s).countP (fun l => l.length == 0 && l.contains a) = 0 := by
          refine List.countP_eq_zero.mpr (fun l _ => ?_)
          cases l <;> simp
        rw [hz]
        simp [List.length_append]
      | succ k'' =>
        have hih2 : (powerset s).countP (fun l => l.length == k'' + 1 && l.contains a) =
            Nat.choose (s.length - 1) k'' := by
          have h := ih (k'' + 1) has hnd'.1 (by omega)
          simpa using h
        rw [hih2]
        have hlen : (s ++ [y]).length - 1 = (s.length - 1) + 1 := by
          simp only [List.length_append, List.length_singleton]
          omega
        rw [hlen]
        have hpascal : Nat.choose ((s.length - 1) + 1) (k'' + 1 + 1 - 1) =
            Nat.choose (s.length - 1) k'' + Nat.choose (s.length - 1) (k'' + 1) := by
          have h2 : k'' + 1 + 1 - 1 = k'' + 1 := by omega
          rw [h2]
          exact Nat.choose_succ_succ _ _
        rw [hpascal]
        omega
    · -- a = y, hence a ∉ s
      have hay : a = y := List.mem_singleton.mp hay
      have has : a ∉ s := hay ▸ hnd'.2
      have hfirst : (powerset s).countP (fun l => l.length == k' + 1 && l.contains a) = 0 := by
        refine List.countP_eq_zero.mpr (fun l hl => ?_)
        have : a ∉ l := fun hmem =>
          has ((sublist_of_mem_powerset hl).mem hmem)
        simp [List.elem_eq_mem, this]
      have hsec : (powerset s).countP
          ((fun l => l.length == k' + 1 && l.contains a) ∘ (fun l => l ++ [y])) =
          (powerset s).countP (fun l => l.length == k') := by
        refine List.countP_congr (fun l _ => ?_)
        simp only [Function.comp, List.length_append, List.length_singleton,
          List.elem_eq_mem, List.mem_append, List.mem_singleton,
          Bool.and_eq_true, beq_iff_eq, decide_eq_true_eq]
        constructor
        · rintro ⟨h1, _⟩
          omega
        · intro h1
          exact ⟨by omega, Or.inr hay⟩
      rw [hfirst, hsec, countP_powerset_length s k']
      simp [List.length_append]

theorem countP_eq_one_of_nodup_mem {l : List (List Nat)} {a : List Nat}
    (hnd : l.Nodup) (ha : a ∈ l) : l.countP (fun x => x == a) = 1 := by
  induction l with
  | nil => exact absurd ha (List.not_mem_nil a)
  | cons b l ih =>
    rw [List.nodup_cons] at hnd
    rw [List.countP_cons]
    rcases List.mem_cons.mp ha with hab | hal
    · subst hab
      have hz : l.countP (fun x => x == a) = 0 :=
        List.countP_eq_zero.mpr (fun x hx hpx => hnd.1 ((beq_iff_eq.mp hpx) ▸ hx))
      simp [hz]
    · have hne : (b == a) = false := by
        refine beq_eq_false_iff_ne.mpr (fun hba => ?_)
        exact hnd.1 (hba ▸ hal)
      rw [ih hnd.2 hal, hne]
      simp

theorem sorted_le_of_mem_powerset_range' {l : List Nat} {n : Nat}
    (h : l ∈ powerset (List.range' 1 n)) : l.Sorted (· ≤ ·) := by
  have hlt : l.Pairwise (· < ·) :=
    (List.pairwise_lt_range' 1 n 1 (by omega)).sublist (sublist_of_mem_powerset h)
  exact hlt.imp Nat.le_of_lt

theorem countP_filter_eq_one {p : List Nat → Bool} {S : List Nat} {l : List (List Nat)}
    (hnd : l.Nodup) (hS : S ∈ l) (hpS : p S = true) :
    (l.filter p).countP (fun x => x == S) = 1 := by
  rw [List.countP_filter]
  have : l.countP (fun x => x == S && p x) = l.countP (fun x => x == S) := by
    refine List.countP_congr (fun x _ => ?_)
    constructor
    · intro h
      simp only [Bool.and_eq_true] at h
      exact h.1
    · intro h
      have hx : x = S := beq_iff_eq.mp h
      simp [hx, hpS]
  rw [this, countP_eq_one_of_nodup_mem hnd hS]

theorem digitVal_digitChar (d : Nat) (h : d < 10) : digitVal (digitChar d) = some d := by
  interval_cases d <;> rfl

theorem digitsValAux_append (a : Nat) (l1 l2 : List Char) :
    digitsValAux (some a) (l1 ++ l2) =
      match digitsValAux (some a) l1 with
      | none => none
      | some b => digitsValAux (some b) l2 := by
  induction l1 generalizing a with
  | nil => rfl
  | cons c cs ih =>
    cases hd : digitVal c with
    | none => simp [digitsValAux, hd]
    | some d =>
      simp only [List.cons_append, digitsValAux, hd]
      exact ih (a * 10 + d)

theorem digitsValAux_toDecimalAux (fuel : Nat) :
    ∀ n a, n ≤ fuel →
      digitsValAux (some a) (toDecimalAux fuel n) =
        some (a * 10 ^ (toDecimalAux fuel n).length + n) := by
  induction fuel with
  | zero =>
    intro n a h
    have hn : n = 0 := by omega
    subst hn
    simp [toDecimalAux, digitsValAux]
  | succ fuel ih =>
    intro n a h
    by_cases hn : n = 0
    · subst hn
      simp [toDecimalAux, digitsValAux]
    · simp only [toDecimalAux, if_neg hn]
      rw [digitsValAux_append, ih (n / 10) a (by omega)]
      have hone : digitsValAux
          (some (a * 10 ^ (toDecimalAux fuel (n / 10)).length + n / 10))
          [digitChar (n % 10)] =
          some ((a * 10 ^ (toDecimalAux fuel (n / 10)).length + n / 10) * 10 + n % 10) := by
        simp [digitsValAux, digitVal_digitChar (n % 10) (Nat.mod_lt n (by omega))]
      show digitsValAux
          (some (a * 10 ^ (toDecimalAux fuel (n / 10)).length + n / 10))
          [digitChar (n % 10)] = _
      rw [hone, List.length_append, List.length_singleton]
      congr 1
      have hcalc : (a * 10 ^ (toDecimalAux fuel (n / 10)).length + n / 10) * 10 + n % 10 =
          a * (10 ^ (toDecimalAux fuel (n / 10)).length * 10) + (10 * (n / 10) + n % 10) := by
        ring
      rw [hcalc, Nat.div_add_mod, pow_succ]

theorem natDecimal_ne_nil (n : Nat) : natDecimal n ≠ [] := by
  unfold natDecimal
  by_cases hn : n = 0
  · simp [hn]
  · rw [if_neg hn]
    obtain ⟨m, rfl⟩ : ∃ m, n = m + 1 := ⟨n - 1, by omega⟩
    simp only [toDecimalAux, if_neg hn]
    simp

theorem parseU64_natDecimal (n : Nat) (h : n < USIZEMOD) :
    parseU64 (natDecimal n) = some n := by
  unfold parseU64
  rw [if_neg (natDecimal_ne_nil n)]
  by_cases hn : n = 0
  · subst hn
    rfl
  · unfold natDecimal
    rw [if_neg hn, digitsValAux_toDecimalAux n n 0 (le_refl n)]
    simp only [Nat.zero_mul, Nat.zero_add]
    rw [if_pos h]

theorem toDecimalAux_digits (fuel : Nat) :
    ∀ n c, c ∈ toDecimalAux fuel n → ∃ d, d < 10 ∧ c = digitChar d := by
  induction fuel with
  | zero =>
    intro n c hc
    simp [toDecimalAux] at hc
  | succ fuel ih =>
    intro n c hc
    simp only [toDecimalAux] at hc
    by_cases hn : n = 0
    · rw [if_pos hn] at hc
      simp at hc
    · rw [if_neg hn] at hc
      rcases List.mem_append.mp hc with h1 | h1
      · exact ih (n / 10) c h1
      · exact ⟨n % 10, Nat.mod_lt n (by omega), List.mem_singleton.mp h1⟩

theorem natDecimal_no_colon (n : Nat) : ∀ c ∈ natDecimal n, c ≠ ':' := by
  intro c hc
  unfold natDecimal at hc
  by_cases hn : n = 0
  · rw [if_pos hn] at hc
    rw [List.mem_singleton.mp hc]
    decide
  · rw [if_neg hn] at hc
    rcases toDecimalAux_digits n n c hc with ⟨d, hd, rfl⟩
    intro habs
    have hval : (digitChar d).toNat = 48 + d := by
      unfold digitChar
      interval_cases d <;> rfl
    have : (digitChar d).toNat = (':' : Char).toNat := by rw [habs]
    rw [hval, show (':' : Char).toNat = 58 from rfl] at this
    omega

theorem unaryDecode_replicate (rest : List Char) (ns : List Nat)
    (h : unaryDecode rest = some ns) :
    ∀ n, unaryDecode (List.replicate n 'a' ++ ';' :: rest) = some (n :: ns) := by
  intro n
  induction n with
  | zero =>
    show unaryDecode (';' :: rest) = _
    simp [unaryDecode, h]
  | succ n ih =>
    show unaryDecode ('a' :: (List.replicate n 'a' ++ ';' :: rest)) = _
    simp only [unaryDecode, ih]

theorem unaryDecode_encode (l : List Nat) : unaryDecode (unaryEncode l) = some l := by
  induction l with
  | nil => rfl
  | cons n ns ih => exact unaryDecode_replicate _ _ ih n

theorem unaryEncode_no_colon (l : List Nat) : ∀ c ∈ unaryEncode l, c ≠ ':' := by
  induction l with
  | nil => intro c hc; simp [unaryEncode] at hc
  | cons n ns ih =>
    intro c hc
    simp only [unaryEncode] at hc
    rcases List.mem_append.mp hc with h1 | h1
    · rw [List.eq_of_mem_replicate h1]
      decide
    · rcases List.mem_cons.mp h1 with h2 | h2
      · rw [h2]; decide
      · exact ih c h2

theorem takeWhile_append_of_all {p : Char → Bool} (l1 : List Char) (x : Char)
    (l2 : List Char) (hall : ∀ c ∈ l1, p c = true) (hx : p x = false) :
    (l1 ++ x :: l2).takeWhile p = l1 ∧ (l1 ++ x :: l2).dropWhile p = x :: l2 := by
  induction l1 with
  | nil =>
    constructor
    · show (x :: l2).takeWhile p = []
      simp [List.takeWhile_cons, hx]
    · show (x :: l2).dropWhile p = x :: l2
      simp [List.dropWhile_cons, hx]
  | cons c cs ih =>
    have hc : p c = true := hall c (List.mem_cons_self c cs)
    have ih2 := ih (fun d hd => hall d (List.mem_cons_of_mem c hd))
    constructor
    · simp only [List.cons_append, List.takeWhile_cons, hc, if_true]
      rw [ih2.1]
    · simp only [List.cons_append, List.dropWhile_cons, hc, if_true]
      exact ih2.2

theorem takeWhile_eq_self_of_all {p : Char → Bool} (l : List Char)
    (hall : ∀ c ∈ l, p c = true) : l.takeWhile p = l := by
  induction l with
  | nil => rfl
  | cons c cs ih =>
    have hc : p c = true := hall c (List.mem_cons_self c cs)
    simp only [List.takeWhile_cons, hc, if_pos]
    rw [ih (fun d hd => hall d (List.mem_cons_of_mem c hd))]

/-- C7: for every plaintext (as the bytes of a Rust string, i.e. valid
UTF-8), password and nonce on which encryption succeeds, decrypting the
produced envelope with the same password recovers the plaintext exactly.
The external primitives (`sha2`, `aes_gcm`, `base64`) are abstract
parameters constrained by their black-box contracts (AEAD round trip,
base64 round trip, colon-free base64 alphabet). -/
theorem C7_envelope_roundtrip (E : AeadExt) (p pw : List Nat) (nonce : Nat)
    (env : List Char)
    (hrt : ∀ k iv pt c, E.aeadEncrypt k iv pt = some c → E.aeadDecrypt k iv c = some pt)
    (hb64 : ∀ x, E.b64decode (E.b64encode x) = some x)
    (hcol : ∀ x, ∀ c ∈ E.b64encode x, c ≠ ':')
    (hutf : utf8Valid p = true)
    (hn : nonce < USIZEMOD)
    (henc : encryptWithNonce E p pw nonce = some env) :
    decrypt E env pw = .ok p := by
  unfold encryptWithNonce at henc
  cases hct : E.aeadEncrypt (E.sha256 pw) (derive_iv_from_nonce nonce) p with
  | none => rw [hct] at henc; exact absurd henc (by simp)
  | some ct =>
    rw [hct] at henc
    have henv : env = natDecimal nonce ++ ':' :: E.b64encode ct := by
      injection henc with h
      exact h.symm
    subst henv
    have hdig : ∀ c ∈ natDecimal nonce, (c != ':') = true := fun c hc =>
      bne_iff_ne.mpr (natDecimal_no_colon nonce c hc)
    have hcolon : ((':' : Char) != ':') = false := by decide
    have hsplit := takeWhile_append_of_all (p := fun c => c != ':')
      (natDecimal nonce) ':' (E.b64encode ct) hdig hcolon
    unfold decrypt
    rw [show splitColonFirst (natDecimal nonce ++ ':' :: E.b64encode ct) =
        natDecimal nonce from hsplit.1]
    rw [parseU64_natDecimal nonce hn]
    have hsecond : splitColonSecond (natDecimal nonce ++ ':' :: E.b64encode ct) =
        some (E.b64encode ct) := by
      unfold splitColonSecond
      rw [hsplit.2]
      show some (List.takeWhile (fun c => c != ':') (E.b64encode ct)) =
        some (E.b64encode ct)
      rw [takeWhile_eq_self_of_all _ (fun c hc => bne_iff_ne.mpr (hcol ct c hc))]
    rw [hsecond]
    simp only [decryptWithNonce, hb64 ct, hrt _ _ _ _ hct, hutf, if_true]


/-! ## Shared facts about the machine-integer helpers -/

theorem u16_eq_of_lt {x : Nat} (h : x < 65536) : u16 x = x := by
  unfold u16 U16MOD
  omega

theorem u16sub_one {t : Nat} (h1 : 1 ≤ t) (h2 : t < 65536) : u16sub t 1 = t - 1 := by
  unfold u16sub u16 U16MOD
  omega

theorem usizeSub_spec {a b : Nat} (ha : a < USIZEMOD) (hb : b < USIZEMOD) :
    usizeSub a b = if b ≤ a then a - b else a + USIZEMOD - b := by
  unfold usizeSub USIZEMOD at *
  split <;> omega


/-! ## Inversion principles for the two signers: a complete case
enumeration of their behaviour, proved once and reused by the claims. -/

theorem gg20Sign_inv (eprims : EcdsaPrims) (state : SigningState)
    (lk : EcdsaLocalKeyData) (data : List Nat) (pid : Nat) (signers : List Nat)
    (now : String) :
    (u16 state.signing_parts.length > u16 state.t ∧
      gg20Sign eprims state lk data pid signers now = (state, .error .alreadySigned)) ∨
    (¬ u16 state.signing_parts.length > u16 state.t ∧
      ((gg20SelectOffline lk signers = none ∧
        gg20Sign eprims state lk data pid signers now =
          (state, .error .panickedUnwrapNoOffline)) ∨
       (∃ offline, gg20SelectOffline lk signers = some offline ∧
         ((eprims.signManualNew (bigIntFromBytes data) offline.completed_offline = none ∧
           gg20Sign eprims state lk data pid signers now =
             (state, .error .signManualNewFailed)) ∨
          (∃ sp, eprims.signManualNew (bigIntFromBytes data) offline.completed_offline =
              some sp ∧
            ((u16 state.signing_parts.length > u16sub state.t 1 ∧
              ((extractEcdsaParts state.signing_parts = none ∧
                gg20Sign eprims state lk data pid signers now =
                  (state, .error .panickedWrongSignatureType)) ∨
               (∃ gt, extractEcdsaParts state.signing_parts = some gt ∧
                 ((eprims.complete sp.1 gt = none ∧
                   gg20Sign eprims state lk data pid signers now =
                     (state, .error .onlineStageFailed)) ∨
                  (∃ sig, eprims.complete sp.1 gt = some sig ∧
                    (gg20Sign eprims state lk data pid signers now =
                      ({ state with
                          signing_parts := state.signing_parts ++
                            [⟨pid, .ECDSA sp.2, now⟩],
                          signature := some ⟨sig.rHex, sig.sHex, sig.recid⟩ }, .ok ()) ∨
                     gg20Sign eprims state lk data pid signers now =
                      ({ state with
                          signing_parts := state.signing_parts ++
                            [⟨pid, .ECDSA sp.2, now⟩],
                          signature := some ⟨sig.rHex, sig.sHex, sig.recid⟩ },
                        .error .signatureVerificationFailed))))))) ∨
             (¬ u16 state.signing_parts.length > u16sub state.t 1 ∧
              gg20Sign eprims state lk data pid signers now =
                ({ state with signing_parts := state.signing_parts ++
                    [⟨pid, .ECDSA sp.2, now⟩] }, .ok ())))))))) := by
  by_cases h1 : u16 state.signing_parts.length > u16 state.t
  · exact Or.inl ⟨h1, by unfold gg20Sign; rw [if_pos h1]⟩
  · refine Or.inr ⟨h1, ?_⟩
    cases hsel : gg20SelectOffline lk signers with
    | none =>
      refine Or.inl ⟨rfl, ?_⟩
      unfold gg20Sign
      rw [if_neg h1]
      simp only [hsel]
    | some offline =>
      refine Or.inr ⟨offline, rfl, ?_⟩
      cases hsm : eprims.signManualNew (bigIntFromBytes data) offline.completed_offline with
      | none =>
        refine Or.inl ⟨rfl, ?_⟩
        unfold gg20Sign
        rw [if_neg h1]
        simp only [hsel, hsm]
      | some sp =>
        refine Or.inr ⟨sp, rfl, ?_⟩
        by_cases h3 : u16 state.signing_parts.length > u16sub state.t 1
        · refine Or.inl ⟨h3, ?_⟩
          cases hext : extractEcdsaParts state.signing_parts with
          | none =>
            refine Or.inl ⟨rfl, ?_⟩
            unfold gg20Sign
            rw [if_neg h1]
            simp only [hsel, hsm]
            rw [if_pos h3]
            simp only [hext]
          | some gt =>
            refine Or.inr ⟨gt, rfl, ?_⟩
            cases hcm : eprims.complete sp.1 gt with
            | none =>
              refine Or.inl ⟨rfl, ?_⟩
              unfold gg20Sign
              rw [if_neg h1]
              simp only [hsel, hsm]
              rw [if_pos h3]
              simp only [hext, hcm]
            | some sig =>
              refine Or.inr ⟨sig, rfl, ?_⟩
              by_cases h4 : eprims.verify sig
                  (eprims.publicKey offline.completed_offline) (bigIntFromBytes data) = true
              · refine Or.inl ?_
                unfold gg20Sign
                rw [if_neg h1]
                simp only [hsel, hsm]
                rw [if_pos h3]
                simp only [hext, hcm]
                rw [if_pos h4]
              · refine Or.inr ?_
                unfold gg20Sign
                rw [if_neg h1]
                simp only [hsel, hsm]
                rw [if_pos h3]
                simp only [hext, hcm]
                rw [if_neg h4]
        · refine Or.inr ⟨h3, ?_⟩
          unfold gg20Sign
          rw [if_neg h1]
          simp only [hsel, hsm]
          rw [if_neg h3]

theorem eddsaSign_inv (dprims : EddsaPrims) (state : SigningState)
    (lk : EddsaLocalKeyData) (data : List Nat) (pid nonce : Nat) (now : String) :
    (u16 state.signing_parts.length > state.t ∧
      eddsaSign dprims state lk data pid nonce now = (state, .error .alreadySigned)) ∨
    (¬ u16 state.signing_parts.length > state.t ∧
      (usizeSub nonce lk.offline_data.nonce_start_index < 0 ∨
        usizeSub nonce lk.offline_data.nonce_start_index ≥
          lk.offline_data.completed_offline.length) ∧
      eddsaSign dprims state lk data pid nonce now = (state, .error .nonceOutOfRange)) ∨
    (∃ psig : LocalSig,
      ¬ u16 state.signing_parts.length > state.t ∧
      ¬ (usizeSub nonce lk.offline_data.nonce_start_index < 0 ∨
          usizeSub nonce lk.offline_data.nonce_start_index ≥
            lk.offline_data.completed_offline.length) ∧
      ((u16 state.signing_parts.length > u16sub state.t 1 ∧
        ((extractEddsaParts (state.signing_parts ++ [SignedPartialSignature.mk pid (.EDDSA psig) now]) = none ∧
          eddsaSign dprims state lk data pid nonce now =
            ({ state with signing_parts := state.signing_parts ++
                [SignedPartialSignature.mk pid (.EDDSA psig) now] }, .error .panickedWrongSignatureType)) ∨
         (∃ lsv, extractEddsaParts (state.signing_parts ++ [SignedPartialSignature.mk pid (.EDDSA psig) now]) =
             some lsv ∧
           ((lk.offline_data.completed_offline[nonce]? = none ∧
             eddsaSign dprims state lk data pid nonce now =
               ({ state with signing_parts := state.signing_parts ++
                   [SignedPartialSignature.mk pid (.EDDSA psig) now] }, .error .panickedIndexOutOfBounds)) ∨
            (∃ entry, lk.offline_data.completed_offline[nonce]? = some entry ∧
              ((dprims.verifyLocalSigs lsv
                  ((state.signing_parts ++ [SignedPartialSignature.mk pid (.EDDSA psig) now]).map
                    (fun x => u16sub x.party_id 1))
                  lk.local_key.vss_schemes entry.nonce_vss_schemes = none ∧
                eddsaSign dprims state lk data pid nonce now =
                  ({ state with signing_parts := state.signing_parts ++
                      [SignedPartialSignature.mk pid (.EDDSA psig) now] }, .error .verifyLocalSigFailed)) ∨
               (∃ vss, dprims.verifyLocalSigs lsv
                    ((state.signing_parts ++ [SignedPartialSignature.mk pid (.EDDSA psig) now]).map
                      (fun x => u16sub x.party_id 1))
                    lk.local_key.vss_schemes entry.nonce_vss_schemes = some vss ∧
                 (eddsaSign dprims state lk data pid nonce now =
                    ({ state with
                        signing_parts := state.signing_parts ++ [SignedPartialSignature.mk pid (.EDDSA psig) now],
                        signature := some
                          ⟨(dprims.generate vss lsv
                              ((state.signing_parts ++ [SignedPartialSignature.mk pid (.EDDSA psig) now]).map
                                (fun x => u16sub x.party_id 1)) entry.agg_nonce).rHex,
                            (dprims.generate vss lsv
                              ((state.signing_parts ++ [SignedPartialSignature.mk pid (.EDDSA psig) now]).map
                                (fun x => u16sub x.party_id 1)) entry.agg_nonce).sHex,
                            0⟩ }, .ok ()) ∨
                  eddsaSign dprims state lk data pid nonce now =
                    ({ state with
                        signing_parts := state.signing_parts ++ [SignedPartialSignature.mk pid (.EDDSA psig) now],
                        signature := some
                          ⟨(dprims.generate vss lsv
                              ((state.signing_parts ++ [SignedPartialSignature.mk pid (.EDDSA psig) now]).map
                                (fun x => u16sub x.party_id 1)) entry.agg_nonce).rHex,
                            (dprims.generate vss lsv
                              ((state.signing_parts ++ [SignedPartialSignature.mk pid (.EDDSA psig) now]).map
                                (fun x => u16sub x.party_id 1)) entry.agg_nonce).sHex,
                            0⟩ }, .error .signatureVerificationFailed)))))))) ∨
       (¬ u16 state.signing_parts.length > u16sub state.t 1 ∧
        eddsaSign dprims state lk data pid nonce now =
          ({ state with signing_parts := state.signing_parts ++
              [SignedPartialSignature.mk pid (.EDDSA psig) now] }, .ok ()))))) := by
  by_cases h1 : u16 state.signing_parts.length > state.t
  · exact Or.inl ⟨h1, by unfold eddsaSign; rw [if_pos h1]⟩
  · by_cases h2 : usizeSub nonce lk.offline_data.nonce_start_index < 0 ∨
        usizeSub nonce lk.offline_data.nonce_start_index ≥
          lk.offline_data.completed_offline.length
    · refine Or.inr (Or.inl ⟨h1, h2, ?_⟩)
      unfold eddsaSign
      rw [if_neg h1, if_pos h2]
    · refine Or.inr (Or.inr ⟨dprims.compute data
        ((lk.offline_data.completed_offline.getD
          (usizeSub nonce lk.offline_data.nonce_start_index) default).combined_nonce_share)
        lk.local_key.combined_share, h1, h2, ?_⟩)
      by_cases h3 : u16 state.signing_parts.length > u16sub state.t 1
      · refine Or.inl ⟨h3, ?_⟩
        cases hext : extractEddsaParts (state.signing_parts ++
            [⟨pid, .EDDSA (dprims.compute data
              ((lk.offline_data.completed_offline.getD
                (usizeSub nonce lk.offline_data.nonce_start_index)
                default).combined_nonce_share)
              lk.local_key.combined_share), now⟩]) with
        | none =>
          refine Or.inl ⟨rfl, ?_⟩
          unfold eddsaSign
          rw [if_neg h1, if_neg h2, if_pos h3]
          simp only [hext]
        | some lsv =>
          refine Or.inr ⟨lsv, rfl, ?_⟩
          cases hidx : lk.offline_data.completed_offline[nonce]? with
          | none =>
            refine Or.inl ⟨rfl, ?_⟩
            unfold eddsaSign
            rw [if_neg h1, if_neg h2, if_pos h3]
            simp only [hext, hidx]
          | some entry =>
            refine Or.inr ⟨entry, rfl, ?_⟩
            cases hvls : dprims.verifyLocalSigs lsv
                ((state.signing_parts ++ [SignedPartialSignature.mk pid
                  (.EDDSA (dprims.compute data
                    ((lk.offline_data.completed_offline.getD
                      (usizeSub nonce lk.offline_data.nonce_start_index)
                      default).combined_nonce_share)
                    lk.local_key.combined_share)) now]).map
                  (fun x => u16sub x.party_id 1))
                lk.local_key.vss_schemes entry.nonce_vss_schemes with
            | none =>
              refine Or.inl ⟨rfl, ?_⟩
              unfold eddsaSign
              rw [if_neg h1, if_neg h2, if_pos h3]
              simp only [hext, hidx, hvls]
            | some vss =>
              refine Or.inr ⟨vss, rfl, ?_⟩
              by_cases h4 : dprims.verify (dprims.generate vss lsv
                  ((state.signing_parts ++ [SignedPartialSignature.mk pid
                    (.EDDSA (dprims.compute data
                      ((lk.offline_data.completed_offline.getD
                        (usizeSub nonce lk.offline_data.nonce_start_index)
                        default).combined_nonce_share)
                      lk.local_key.combined_share)) now]).map
                    (fun x => u16sub x.party_id 1)) entry.agg_nonce)
                  data lk.local_key.agg_pubkey = true
              · refine Or.inl ?_
                unfold eddsaSign
                rw [if_neg h1, if_neg h2, if_pos h3]
                simp only [hext, hidx, hvls]
                rw [if_pos h4]
              · refine Or.inr ?_
                unfold eddsaSign
                rw [if_neg h1, if_neg h2, if_pos h3]
                simp only [hext, hidx, hvls]
                rw [if_neg h4]
      · refine Or.inr ⟨h3, ?_⟩
        unfold eddsaSign
        rw [if_neg h1, if_neg h2, if_neg h3]

/-! ## Claim C10 -/

/-- C10: for the `EddsaKeygen` and `EddsaOfflineGen` state machines,
`wants_to_proceed()` returns true iff the current state is `Round0`, or it
is `Round1` and the round-1 broadcast store no longer wants more messages,
or it is `Round2` and the round-2 P2P store no longer wants more messages;
in the `Final` and `Gone` states it returns false. -/
theorem C10_wants_to_proceed (k : EddsaKeygenSM) (p : EddsaOfflineGenSM) :
    (k.wantsToProceed = true ↔
      k.round = KeygenR.Round0 ∨
      (k.round = KeygenR.Round1 ∧ storeWantsMore k.msgs1 = false) ∨
      (k.round = KeygenR.Round2 ∧ storeWantsMore k.msgs2 = false)) ∧
    ((k.round = KeygenR.Final ∨ k.round = KeygenR.Gone) → k.wantsToProceed = false) ∧
    (p.wantsToProceed = true ↔
      p.round = OfflineR.Round0 ∨
      (p.round = OfflineR.Round1 ∧ storeWantsMore p.msgs1 = false) ∨
      (p.round = OfflineR.Round2 ∧ storeWantsMore p.msgs2 = false)) ∧
    ((p.round = OfflineR.Final ∨ p.round = OfflineR.Gone) → p.wantsToProceed = false) := by
  obtain ⟨kr, km1, km2, ki, kn⟩ := k
  obtain ⟨pr, pm1, pm2, pi, pn⟩ := p
  refine ⟨?_, ?_, ?_, ?_⟩
  · cases kr <;>
      simp [EddsaKeygenSM.wantsToProceed, storeWantsMore]
  · cases kr <;>
      simp [EddsaKeygenSM.wantsToProceed, storeWantsMore]
  · cases pr <;>
      simp [EddsaOfflineGenSM.wantsToProceed, storeWantsMore]
  · cases pr <;>
      simp [EddsaOfflineGenSM.wantsToProceed, storeWantsMore]

/-! ## Claim C6 -/

/-- C6: for both signers, when `signing_parts.len() > t` at entry the call
returns `AlreadySigned` with the entire state unchanged; and any call
returning `NonceOutOfRange` also leaves the state unchanged. -/
theorem C6_already_signed_idempotence
    (eprims : EcdsaPrims) (dprims : EddsaPrims) (state : SigningState)
    (lkE : EcdsaLocalKeyData) (lkD : EddsaLocalKeyData) (data : List Nat)
    (party_id nonce : Nat) (signers : List Nat) (now : String)
    (hlen : state.signing_parts.length < 65536) (ht : state.t < 65536) :
    (state.signing_parts.length > state.t →
      gg20Sign eprims state lkE data party_id signers now =
        (state, .error .alreadySigned) ∧
      eddsaSign dprims state lkD data party_id nonce now =
        (state, .error .alreadySigned)) ∧
    (∀ st, gg20Sign eprims state lkE data party_id signers now =
        (st, .error .nonceOutOfRange) → st = state) ∧
    (∀ st, eddsaSign dprims state lkD data party_id nonce now =
        (st, .error .nonceOutOfRange) → st = state) := by
  refine ⟨?_, ?_, ?_⟩
  · intro hgt
    have h1 : u16 state.signing_parts.length > u16 state.t := by
      rw [u16_eq_of_lt hlen, u16_eq_of_lt ht]
      exact hgt
    have h2 : u16 state.signing_parts.length > state.t := by
      rw [u16_eq_of_lt hlen]
      exact hgt
    constructor
    · unfold gg20Sign
      rw [if_pos h1]
    · unfold eddsaSign
      rw [if_pos h2]
  · intro st h
    rcases gg20Sign_inv eprims state lkE data party_id signers now with
      ⟨_, heq⟩ |
      ⟨_, ⟨_, heq⟩ |
        ⟨off, _, ⟨_, heq⟩ |
          ⟨sp, _, ⟨_, ⟨_, heq⟩ | ⟨gt, _, ⟨_, heq⟩ | ⟨sig, _, heq | heq⟩⟩⟩ | ⟨_, heq⟩⟩⟩⟩ <;>
      rw [heq] at h <;> simp_all
  · intro st h
    rcases eddsaSign_inv dprims state lkD data party_id nonce now with
      ⟨_, heq⟩ |
      ⟨_, _, heq⟩ |
      ⟨psig, _, _,
        ⟨_, ⟨_, heq⟩ |
          ⟨lsv, _, ⟨_, heq⟩ |
            ⟨entry, _, ⟨_, heq⟩ | ⟨vss, _, heq | heq⟩⟩⟩⟩ | ⟨_, heq⟩⟩ <;>
      rw [heq] at h <;> simp_all


/-- If a partial-signature list extracts as all-EdDSA, so does its
extension by one EdDSA part. -/
theorem extractEddsaParts_append_some (l : List SignedPartialSignature)
    (x : SignedPartialSignature) (p : LocalSig)
    (hx : x.part = PartialSignatureType.EDDSA p)
    (h : (extractEddsaParts l).isSome = true) :
    (extractEddsaParts (l ++ [x])).isSome = true := by
  induction l with
  | nil => simp [extractEddsaParts, hx]
  | cons y ys ih =>
    cases hy : y.part with
    | ECDSA q =>
      exfalso
      simp [extractEddsaParts, hy] at h
    | EDDSA q =>
      have hys : (extractEddsaParts ys).isSome = true := by
        cases hys : extractEddsaParts ys with
        | none => simp [extractEddsaParts, hy, hys] at h
        | some v => simp
      have hrec := ih hys
      cases hr : extractEddsaParts (ys ++ [x]) with
      | none => rw [hr] at hrec; simp at hrec
      | some v => simp [List.cons_append, extractEddsaParts, hy, hr]

/-! ## Claim C2 -/

/-- C2: on a not-yet-full state, the EdDSA signer computes
`nonce_index = nonce - nonce_start_index` and returns `NonceOutOfRange`
exactly when that index (as an integer) falls outside
`[0, completed_offline.len())`; the error never mutates the state; in
particular every `nonce < nonce_start_index` fails this way, and so does
`nonce = nonce_start_index + nonce_size` for offline data whose
`nonce_size` field carries `nonce_start_index + completed_offline.len()`
(as `generate_dynamic_nonces` sets it).  Wrapping `usize` subtraction
(release semantics) is modelled explicitly; the representability bounds are
the hypotheses. -/
theorem C2_nonce_range_check
    (dprims : EddsaPrims) (state : SigningState) (lk : EddsaLocalKeyData)
    (data : List Nat) (party_id nonce : Nat) (now : String)
    (hlen16 : state.signing_parts.length < 65536)
    (hfull : state.signing_parts.length ≤ state.t)
    (hstart : lk.offline_data.nonce_start_index < 65536)
    (hnonce : nonce < USIZEMOD)
    (hoff : lk.offline_data.completed_offline.length + 131072 ≤ USIZEMOD) :
    ((eddsaSign dprims state lk data party_id nonce now).2 =
        .error .nonceOutOfRange ↔
      (nonce < lk.offline_data.nonce_start_index ∨
        lk.offline_data.completed_offline.length ≤
          nonce - lk.offline_data.nonce_start_index)) ∧
    ((eddsaSign dprims state lk data party_id nonce now).2 =
        .error .nonceOutOfRange →
      (eddsaSign dprims state lk data party_id nonce now).1 = state) ∧
    (nonce < lk.offline_data.nonce_start_index →
      (eddsaSign dprims state lk data party_id nonce now).2 =
        .error .nonceOutOfRange) ∧
    (lk.offline_data.nonce_size = lk.offline_data.nonce_start_index +
        lk.offline_data.completed_offline.length →
      nonce = lk.offline_data.nonce_start_index + lk.offline_data.nonce_size →
      (eddsaSign dprims state lk data party_id nonce now).2 =
        .error .nonceOutOfRange) := by
  have hnotfull : ¬ u16 state.signing_parts.length > state.t := by
    rw [u16_eq_of_lt hlen16]
    omega
  have hM : lk.offline_data.nonce_start_index < USIZEMOD := by
    unfold USIZEMOD
    omega
  have hsub := usizeSub_spec hnonce hM
  have hkey : (usizeSub nonce lk.offline_data.nonce_start_index < 0 ∨
      usizeSub nonce lk.offline_data.nonce_start_index ≥
        lk.offline_data.completed_offline.length) ↔
      (nonce < lk.offline_data.nonce_start_index ∨
        lk.offline_data.completed_offline.length ≤
          nonce - lk.offline_data.nonce_start_index) := by
    rw [hsub]
    unfold USIZEMOD at *
    split <;> omega
  rcases eddsaSign_inv dprims state lk data party_id nonce now with
    ⟨hf, _⟩ | ⟨_, hc, heq⟩ | ⟨psig, _, hc, hrest⟩
  · exact absurd hf hnotfull
  · rw [heq]
    refine ⟨?_, ?_, ?_, ?_⟩
    · simp only [true_iff]
      exact hkey.mp hc
    · intro _
      rfl
    · intro _
      rfl
    · intro _ _
      rfl
  · have hne : (eddsaSign dprims state lk data party_id nonce now).2 ≠
        .error .nonceOutOfRange := by
      rcases hrest with ⟨_, ⟨_, heq⟩ | ⟨lsv, _, ⟨_, heq⟩ |
        ⟨entry, _, ⟨_, heq⟩ | ⟨vss, _, heq | heq⟩⟩⟩⟩ | ⟨_, heq⟩ <;>
        rw [heq] <;> simp
    refine ⟨?_, ?_, ?_, ?_⟩
    · rw [iff_false_intro (hkey.not.mp hc)]
      simpa using hne
    · intro habs
      exact absurd habs hne
    · intro hlt
      exact absurd (hkey.mpr (Or.inl hlt)) hc
    · intro hsize hval
      refine absurd (hkey.mpr (Or.inr ?_)) hc
      omega

/-- C2 witness: a concrete call with `nonce = nonce_start_index +
nonce_size` fails with `NonceOutOfRange`. -/
theorem C2_witness :
    (eddsaSign toyEddsaPrims ⟨1, 3, [], none⟩
        (fxEddsaKey 5 7 [⟨[], 0, 0⟩, ⟨[], 1, 1⟩]) [1] 1 12 "t").2 =
      .error .nonceOutOfRange :=
  (C2_nonce_range_check toyEddsaPrims ⟨1, 3, [], none⟩
      (fxEddsaKey 5 7 [⟨[], 0, 0⟩, ⟨[], 1, 1⟩]) [1] 1 12 "t"
      (by decide) (by decide) (by decide)
      (by unfold USIZEMOD; omega) (by unfold USIZEMOD fxEddsaKey; simp)).2.2.2
    (by decide) (by decide)

/-! ## Claim C3 -/

/-- C3 counterexample: with no stored offline result matching the requested
signer set, `gg20::signing::sign` does not return a `NoOfflineForSubset`
error — it takes the `.unwrap()` panic branch of the embedding (no such
error exists in the code). -/
theorem C3_counterexample :
    gg20Sign toyEcdsaPrims ⟨1, 3, [], none⟩
        ⟨⟨0⟩, [⟨[1, 3], ⟨0⟩⟩], "gg20"⟩ [1] 1 [1, 2] "t" =
      (⟨1, 3, [], none⟩, .error .panickedUnwrapNoOffline) := by
  decide

/-- C3 (amended): on a not-yet-full state the ECDSA signer selects the
first stored offline result whose `parties` equal the requested signer list
as a set (order-insensitively: `sameSet` is two-sided containment, i.e.
element-set equality); when no stored result matches, the call panics
(`unwrap` on `None`) without mutating the state, rather than returning a
`NoOfflineForSubset` error. -/
theorem C3_offline_subset_selection
    (eprims : EcdsaPrims) (state : SigningState) (lk : EcdsaLocalKeyData)
    (data : List Nat) (party_id : Nat) (signers : List Nat) (now : String)
    (hlen16 : state.signing_parts.length < 65536) (ht16 : state.t < 65536)
    (hfull : state.signing_parts.length ≤ state.t) :
    (∀ a b : List Nat, sameSet a b = true ↔ (∀ y, y ∈ a ↔ y ∈ b)) ∧
    (gg20SelectOffline lk signers = none ↔
      ∀ x ∈ lk.offline_data, sameSet signers x.parties = false) ∧
    (gg20SelectOffline lk signers = none →
      gg20Sign eprims state lk data party_id signers now =
        (state, .error .panickedUnwrapNoOffline)) ∧
    (∀ x, gg20SelectOffline lk signers = some x →
      sameSet signers x.parties = true ∧ x ∈ lk.offline_data) := by
  have hnotfull : ¬ u16 state.signing_parts.length > u16 state.t := by
    rw [u16_eq_of_lt hlen16, u16_eq_of_lt ht16]
    omega
  refine ⟨?_, ?_, ?_, ?_⟩
  · intro a b
    unfold sameSet
    constructor
    · intro h y
      rw [Bool.and_eq_true, List.all_eq_true, List.all_eq_true] at h
      constructor
      · intro hy
        have := h.1 y hy
        simpa [List.elem_eq_mem] using this
      · intro hy
        have := h.2 y hy
        simpa [List.elem_eq_mem] using this
    · intro h
      rw [Bool.and_eq_true, List.all_eq_true, List.all_eq_true]
      constructor
      · intro y hy
        simpa [List.elem_eq_mem] using (h y).mp hy
      · intro y hy
        simpa [List.elem_eq_mem] using (h y).mpr hy
  · unfold gg20SelectOffline
    rw [List.find?_eq_none]
    constructor
    · intro h x hx
      have := h x hx
      simpa using this
    · intro h x hx
      simp [h x hx]
  · intro hsel
    rcases gg20Sign_inv eprims state lk data party_id signers now with
      ⟨hf, _⟩ |
      ⟨_, ⟨_, heq⟩ |
        ⟨off, hoff, _⟩⟩
    · exact absurd hf hnotfull
    · exact heq
    · rw [hsel] at hoff
      exact absurd hoff (by simp)
  · intro x hx
    unfold gg20SelectOffline at hx
    have h1 := List.find?_some (p := fun y : EcdsaOfflineResult => sameSet signers y.parties) hx
    exact ⟨h1, List.mem_of_find?_eq_some hx⟩

/-- C3 witness: the selection picks the stored result whose party set
equals the signer list up to order, and the missing-subset case takes the
panic branch without mutating the state. -/
theorem C3_witness :
    sameSet [2, 1] [1, 2] = true ∧
    gg20SelectOffline ⟨⟨0⟩, [⟨[1, 2], ⟨7⟩⟩], "gg20"⟩ [2, 1] = some ⟨[1, 2], ⟨7⟩⟩ ∧
    gg20Sign toyEcdsaPrims ⟨1, 3, [], none⟩ ⟨⟨0⟩, [], "gg20"⟩ [1] 1 [1, 2] "t" =
      (⟨1, 3, [], none⟩, .error .panickedUnwrapNoOffline) := by
  refine ⟨by decide, by decide, ?_⟩
  exact (C3_offline_subset_selection toyEcdsaPrims ⟨1, 3, [], none⟩
    ⟨⟨0⟩, [], "gg20"⟩ [1] 1 [1, 2] "t" (by decide) (by decide) (by decide)).2.2.1
    (by decide)

/-! ## Claim C4 -/

/-- C4: on the combine-triggering call (`len == t` at entry, all previous
parts EdDSA, range check passed), the offline entry used by the combine
step is `completed_offline[nonce]`, indexed by the *raw* nonce: when
`nonce_start_index = 0` that index equals `nonce_index` and is in bounds,
but for `nonce_start_index > 0` and `nonce ≥ completed_offline.len()` the
combine step's indexing is out of bounds and the call lands in the
out-of-bounds panic branch of the embedding. -/
theorem C4_raw_nonce_combine_indexing
    (dprims : EddsaPrims) (state : SigningState) (lk : EddsaLocalKeyData)
    (data : List Nat) (party_id nonce : Nat) (now : String)
    (ht16 : state.t < 65536) (htpos : 1 ≤ state.t)
    (hcomb : state.signing_parts.length = state.t)
    (hstart : lk.offline_data.nonce_start_index < 65536)
    (hnonce : nonce < USIZEMOD)
    (hrange1 : lk.offline_data.nonce_start_index ≤ nonce)
    (hrange2 : nonce - lk.offline_data.nonce_start_index <
      lk.offline_data.completed_offline.length)
    (hparts : (extractEddsaParts state.signing_parts).isSome = true) :
    (lk.offline_data.nonce_start_index = 0 →
      usizeSub nonce lk.offline_data.nonce_start_index = nonce ∧
      nonce < lk.offline_data.completed_offline.length) ∧
    (0 < lk.offline_data.nonce_start_index →
      lk.offline_data.completed_offline.length ≤ nonce →
      (eddsaSign dprims state lk data party_id nonce now).2 =
        .error .panickedIndexOutOfBounds) := by
  have hM : lk.offline_data.nonce_start_index < USIZEMOD := by
    unfold USIZEMOD
    omega
  have hsub := usizeSub_spec hnonce hM
  constructor
  · intro h0
    rw [hsub, h0]
    refine ⟨by simp, ?_⟩
    omega
  · intro hpos hge
    have hlen16 : state.signing_parts.length < 65536 := by omega
    have hnotfull : ¬ u16 state.signing_parts.length > state.t := by
      rw [u16_eq_of_lt hlen16]
      omega
    have hc : ¬ (usizeSub nonce lk.offline_data.nonce_start_index < 0 ∨
        usizeSub nonce lk.offline_data.nonce_start_index ≥
          lk.offline_data.completed_offline.length) := by
      rw [hsub, if_pos hrange1]
      omega
    have hcombine : u16 state.signing_parts.length > u16sub state.t 1 := by
      rw [u16_eq_of_lt hlen16, u16sub_one htpos ht16]
      omega
    have hidx : lk.offline_data.completed_offline[nonce]? = none :=
      List.getElem?_eq_none hge
    rcases eddsaSign_inv dprims state lk data party_id nonce now with
      ⟨hf, _⟩ | ⟨_, hbad, _⟩ | ⟨psig, _, _, ⟨_, hcases⟩ | ⟨hnc, _⟩⟩
    · exact absurd hf hnotfull
    · exact absurd hbad hc
    · rcases hcases with ⟨hext, heq⟩ | ⟨lsv, hext, ⟨_, heq⟩ |
        ⟨entry, hentry, _⟩⟩
      · exfalso
        have hisland := extractEddsaParts_append_some state.signing_parts
          (SignedPartialSignature.mk party_id (.EDDSA psig) now) psig rfl hparts
        rw [hext] at hisland
        simp at hisland
      · rw [heq]
      · rw [hidx] at hentry
        exact absurd hentry (by simp)
    · exact absurd hcombine hnc

/-- C4 witness: with `nonce_start_index = 1`, a single precomputed entry
and `nonce = 1` (which passes the range check), the combine call panics on
the raw indexing. -/
theorem C4_witness :
    (eddsaSign toyEddsaPrims ⟨1, 3, [⟨2, .EDDSA ⟨9⟩, "t0"⟩], none⟩
        (fxEddsaKey 1 2 [⟨[], 0, 0⟩]) [1] 1 1 "t1").2 =
      .error .panickedIndexOutOfBounds :=
  (C4_raw_nonce_combine_indexing toyEddsaPrims ⟨1, 3, [⟨2, .EDDSA ⟨9⟩, "t0"⟩], none⟩
      (fxEddsaKey 1 2 [⟨[], 0, 0⟩]) [1] 1 1 "t1"
      (by decide) (by decide) (by decide) (by decide)
      (by unfold USIZEMOD; omega) (by decide) (by decide) (by decide)).2
    (by decide) (by decide)


/-! ## Claim C1 -/

/-- C1 counterexample: an EdDSA call on a valid `t = 1` state holding one
partial, whose local-signature verification fails, returns `Err` with
`signing_parts.len() = t + 1` and `signature = None` — the spec's invariant
does not hold after this call. -/
theorem C1_counterexample :
    (eddsaSign toyEddsaPrimsReject ⟨1, 3, [⟨2, .EDDSA ⟨9⟩, "t0"⟩], none⟩
        (fxEddsaKey 0 1 [⟨[], 0, 0⟩]) [1] 1 0 "t1").2 =
      .error .verifyLocalSigFailed ∧
    ¬ SigningInv (eddsaSign toyEddsaPrimsReject ⟨1, 3, [⟨2, .EDDSA ⟨9⟩, "t0"⟩], none⟩
        (fxEddsaKey 0 1 [⟨[], 0, 0⟩]) [1] 1 0 "t1").1 := by
  decide

/-- C1 (amended): for valid `t` and a state satisfying the invariant,
every `gg20::signing::sign` call preserves it (on `Ok` and on every `Err`);
`t_ed25519::signing::sign` always preserves the bound
`signing_parts.len() ≤ t + 1` and preserves the full invariant on `Ok` and
on the `AlreadySigned`, `NonceOutOfRange` and `SignatureVerificationFailed`
outcomes, but a combine step that fails before the signature is stored
(local-signature verification failure, or either panic of the combine
step) returns with `signing_parts.len() = t + 1` and the `signature` field
unchanged — in particular still `None` on a state that had no signature. -/
theorem C1_state_invariant
    (eprims : EcdsaPrims) (dprims : EddsaPrims) (state : SigningState)
    (lkE : EcdsaLocalKeyData) (lkD : EddsaLocalKeyData) (data : List Nat)
    (party_id nonce : Nat) (signers : List Nat) (now : String)
    (htpos : 1 ≤ state.t) (ht16 : state.t + 1 < 65536)
    (hInv : SigningInv state) :
    SigningInv (gg20Sign eprims state lkE data party_id signers now).1 ∧
    (eddsaSign dprims state lkD data party_id nonce now).1.signing_parts.length ≤
      state.t + 1 ∧
    ((eddsaSign dprims state lkD data party_id nonce now).2 = .ok () →
      SigningInv (eddsaSign dprims state lkD data party_id nonce now).1) ∧
    (((eddsaSign dprims state lkD data party_id nonce now).2 =
        .error .verifyLocalSigFailed ∨
      (eddsaSign dprims state lkD data party_id nonce now).2 =
        .error .panickedWrongSignatureType ∨
      (eddsaSign dprims state lkD data party_id nonce now).2 =
        .error .panickedIndexOutOfBounds) →
      (eddsaSign dprims state lkD data party_id nonce now).1.signing_parts.length =
        state.t + 1 ∧
      (eddsaSign dprims state lkD data party_id nonce now).1.signature =
        state.signature) ∧
    (((eddsaSign dprims state lkD data party_id nonce now).2 =
        .error .alreadySigned ∨
      (eddsaSign dprims state lkD data party_id nonce now).2 =
        .error .nonceOutOfRange ∨
      (eddsaSign dprims state lkD data party_id nonce now).2 =
        .error .signatureVerificationFailed) →
      SigningInv (eddsaSign dprims state lkD data party_id nonce now).1) := by
  have hlen16 : state.signing_parts.length < 65536 := by
    have := hInv.1
    omega
  have hu := u16_eq_of_lt hlen16
  have hut : u16 state.t = state.t := u16_eq_of_lt (by omega)
  have hus : u16sub state.t 1 = state.t - 1 := u16sub_one htpos (by omega)
  constructor
  · -- gg20 preserves the invariant on every path
    rcases gg20Sign_inv eprims state lkE data party_id signers now with
      ⟨_, heq⟩ |
      ⟨h1, ⟨_, heq⟩ |
        ⟨off, _, ⟨_, heq⟩ |
          ⟨sp, _, ⟨h3, ⟨_, heq⟩ | ⟨gt, _, ⟨_, heq⟩ | ⟨sig, _, heq | heq⟩⟩⟩ |
            ⟨h3, heq⟩⟩⟩⟩
    · rw [heq]; exact hInv
    · rw [heq]; exact hInv
    · rw [heq]; exact hInv
    · rw [heq]; exact hInv
    · rw [heq]; exact hInv
    · -- combine, verified: parts+1, signature set
      rw [heq]
      rw [hu] at h1
      rw [hu, hus] at h3
      refine ⟨?_, fun _ => ?_⟩
      · simp only [List.length_append, List.length_singleton]
        omega
      · simp
    · -- combine, verification failed: same state as ok
      rw [heq]
      rw [hu] at h1
      rw [hu, hus] at h3
      refine ⟨?_, fun _ => ?_⟩
      · simp only [List.length_append, List.length_singleton]
        omega
      · simp
    · -- push only
      rw [heq]
      rw [hu] at h1
      rw [hu, hus] at h3
      refine ⟨?_, fun habs => ?_⟩
      · simp only [List.length_append, List.length_singleton]
        omega
      · exfalso
        simp only [List.length_append, List.length_singleton] at habs
        omega
  · rcases eddsaSign_inv dprims state lkD data party_id nonce now with
      ⟨_, heq⟩ |
      ⟨_, _, heq⟩ |
      ⟨psig, h1, _,
        ⟨h3, ⟨_, heq⟩ |
          ⟨lsv, _, ⟨_, heq⟩ |
            ⟨entry, _, ⟨_, heq⟩ | ⟨vss, _, heq | heq⟩⟩⟩⟩ | ⟨h3, heq⟩⟩
    -- alreadySigned
    · rw [heq]
      refine ⟨hInv.1, ?_, ?_, ?_⟩
      · intro habs
        simp at habs
      · intro habs
        rcases habs with h | h | h <;> simp at h
      · intro _
        exact hInv
    -- nonceOutOfRange
    · rw [heq]
      refine ⟨hInv.1, ?_, ?_, ?_⟩
      · intro habs
        simp at habs
      · intro habs
        rcases habs with h | h | h <;> simp at h
      · intro _
        exact hInv
    -- combine: extract panic
    · rw [heq]
      rw [hu] at h1
      rw [hu, hus] at h3
      refine ⟨?_, ?_, ?_, ?_⟩
      · simp only [List.length_append, List.length_singleton]
        omega
      · intro habs
        simp at habs
      · intro _
        refine ⟨?_, ?_⟩
        · simp only [List.length_append, List.length_singleton]
          omega
        · simp
      · intro habs
        rcases habs with h | h | h <;> simp at h
    -- combine: raw index panic
    · rw [heq]
      rw [hu] at h1
      rw [hu, hus] at h3
      refine ⟨?_, ?_, ?_, ?_⟩
      · simp only [List.length_append, List.length_singleton]
        omega
      · intro habs
        simp at habs
      · intro _
        refine ⟨?_, ?_⟩
        · simp only [List.length_append, List.length_singleton]
          omega
        · simp
      · intro habs
        rcases habs with h | h | h <;> simp at h
    -- combine: local-sig verification failed
    · rw [heq]
      rw [hu] at h1
      rw [hu, hus] at h3
      refine ⟨?_, ?_, ?_, ?_⟩
      · simp only [List.length_append, List.length_singleton]
        omega
      · intro habs
        simp at habs
      · intro _
        refine ⟨?_, ?_⟩
        · simp only [List.length_append, List.length_singleton]
          omega
        · simp
      · intro habs
        rcases habs with h | h | h <;> simp at h
    -- combine: ok
    · rw [heq]
      rw [hu] at h1
      rw [hu, hus] at h3
      refine ⟨?_, ?_, ?_, ?_⟩
      · simp only [List.length_append, List.length_singleton]
        omega
      · intro _
        refine ⟨?_, fun _ => ?_⟩
        · simp only [List.length_append, List.length_singleton]
          omega
        · simp
      · intro habs
        rcases habs with h | h | h <;> simp at h
      · intro habs
        rcases habs with h | h | h <;> simp at h
    -- combine: final verification failed
    · rw [heq]
      rw [hu] at h1
      rw [hu, hus] at h3
      refine ⟨?_, ?_, ?_, ?_⟩
      · simp only [List.length_append, List.length_singleton]
        omega
      · intro habs
        simp at habs
      · intro habs
        rcases habs with h | h | h <;> simp at h
      · intro _
        refine ⟨?_, fun _ => ?_⟩
        · simp only [List.length_append, List.length_singleton]
          omega
        · simp
    -- push only
    · rw [heq]
      rw [hu] at h1
      rw [hu, hus] at h3
      refine ⟨?_, ?_, ?_, ?_⟩
      · simp only [List.length_append, List.length_singleton]
        omega
      · intro _
        refine ⟨?_, fun habs => ?_⟩
        · simp only [List.length_append, List.length_singleton]
          omega
        · exfalso
          simp only [List.length_append, List.length_singleton] at habs
          omega
      · intro habs
        simp at habs
      · intro habs
        rcases habs with h | h | h <;> simp at h

/-- C1 witness: the amended invariant theorem applied to a fresh
`t = 1, n = 3` state for both signers. -/
theorem C1_witness :
    SigningInv (gg20Sign toyEcdsaPrims ⟨1, 3, [], none⟩
      ⟨⟨0⟩, [⟨[1, 2], ⟨0⟩⟩], "gg20"⟩ [1] 1 [1, 2] "t").1 ∧
    (eddsaSign toyEddsaPrims ⟨1, 3, [], none⟩
      (fxEddsaKey 0 1 [⟨[], 0, 0⟩]) [1] 1 0 "t").1.signing_parts.length ≤ 1 + 1 :=
  ⟨(C1_state_invariant toyEcdsaPrims toyEddsaPrims ⟨1, 3, [], none⟩
      ⟨⟨0⟩, [⟨[1, 2], ⟨0⟩⟩], "gg20"⟩ (fxEddsaKey 0 1 [⟨[], 0, 0⟩]) [1] 1 0 [1, 2] "t"
      (by decide) (by decide) (by decide)).1,
   (C1_state_invariant toyEcdsaPrims toyEddsaPrims ⟨1, 3, [], none⟩
      ⟨⟨0⟩, [⟨[1, 2], ⟨0⟩⟩], "gg20"⟩ (fxEddsaKey 0 1 [⟨[], 0, 0⟩]) [1] 1 0 [1, 2] "t"
      (by decide) (by decide) (by decide)).2.1⟩


/-! ## Claim C5 -/

/-- C5 counterexample: a request with `key_scheme = EDDSA` and `nonce = 1`
(the offline window holds two distinguishable entries) is answered by
`c_sign` with the partial computed from entry 0, not from the requested
entry 1: the dispatcher differs from its spec-following variant. -/
theorem C5_counterexample :
    cSign toyEcdsaPrims toyEddsaPrims toyExtCodecs fxSignRequest "now" ≠
      cSignSpec toyEcdsaPrims toyEddsaPrims toyExtCodecs fxSignRequest "now" := by
  decide

/-- C5 (amended): for EDDSA requests, `c_sign` ignores the request's nonce
entirely — its result is invariant under changing that field — and, when
the state decodes, the payload hex-decodes and the local key decrypts, it
runs the EdDSA signer with the literal nonce `0`, returning the updated
state in base64 form on success and the signer's error otherwise. -/
theorem C5_dispatcher_nonce
    (eprims : EcdsaPrims) (dprims : EddsaPrims) (ext : ExtCodecs)
    (req : NativeSigningRequest) (now : String) (k : Nat)
    (hscheme : req.key_scheme = KeyScheme.EDDSA) :
    (cSign eprims dprims ext { req with nonce := k } now =
      cSign eprims dprims ext req now) ∧
    (∀ state lk data,
      signingStateBase64ToObj ext req.state_base64 = some state →
      ext.hexDecode req.hex_data = some data →
      ext.decryptEddsa req.encrypted_local_key req.password = some lk →
      cSign eprims dprims ext req now =
        (match eddsaSign dprims state lk data (intToU16 req.party_id) 0 now with
         | (st, .ok _) => .ok (signingStateObjToBase64 ext req.key_scheme st)
         | (_, .error e) => .err e)) := by
  constructor
  · rfl
  · intro state lk data h1 h2 h3
    unfold cSign
    simp only [h1, h2]
    rw [if_neg (by rw [hscheme]; decide)]
    simp only [h3]

/-- C5 witness: the amended theorem at the concrete fixture request — the
dispatcher's answer does not change when the request nonce changes to 42. -/
theorem C5_witness :
    cSign toyEcdsaPrims toyEddsaPrims toyExtCodecs
        { fxSignRequest with nonce := 42 } "now" =
      cSign toyEcdsaPrims toyEddsaPrims toyExtCodecs fxSignRequest "now" :=
  (C5_dispatcher_nonce toyEcdsaPrims toyEddsaPrims toyExtCodecs fxSignRequest
    "now" 42 (by decide)).1


/-! ## Claim C9 -/

/-- C9: for valid parameters, filtering `powerset([1..n])` to the
`(t+1)`-subsets containing `party_id` yields exactly `C(n-1, t)` subsets;
every `(t+1)`-sized sublist of `[1..n]` containing `party_id` appears in
that list exactly once, and nothing else appears; the orchestrator's
offline loop runs once per element — with the subset sorted ascending, the
identity here since powerset of a sorted list yields sorted subsets — and
collects exactly that many `EcdsaOfflineResult` records, each bound to its
subset. -/
theorem C9_subset_enumeration
    (runOffline : List Nat → CompletedOfflineStage) (t n party_id : Nat)
    (hn : 2 ≤ n) (ht1 : 1 ≤ t) (htn : t < n)
    (hpid1 : 1 ≤ party_id) (hpidn : party_id ≤ n) :
    (ecdsaOfflineCollect runOffline t n party_id).length = Nat.choose (n - 1) t ∧
    (allSubsetsParties t n party_id).length = Nat.choose (n - 1) t ∧
    (∀ S : List Nat, S.Sublist (List.range' 1 n) → S.length = t + 1 → party_id ∈ S →
      (allSubsetsParties t n party_id).countP (fun x => x == S) = 1) ∧
    (∀ S ∈ allSubsetsParties t n party_id,
      S.Sublist (List.range' 1 n) ∧ S.length = t + 1 ∧ party_id ∈ S) ∧
    ((ecdsaOfflineCollect runOffline t n party_id).map (fun r => r.parties) =
      allSubsetsParties t n party_id) ∧
    (∀ r ∈ ecdsaOfflineCollect runOffline t n party_id,
      r.completed_offline = runOffline r.parties) := by
  have hmem : party_id ∈ List.range' 1 n := by
    rw [List.mem_range'_1]
    omega
  have hnd : (List.range' 1 n).Nodup := List.nodup_range' 1 n 1 (by omega)
  have hlen : (List.range' 1 n).length = n := List.length_range' 1 1 n
  have hBlen : (allSubsetsParties t n party_id).length = Nat.choose (n - 1) t := by
    unfold allSubsetsParties
    rw [← List.countP_eq_length_filter]
    have hc := countP_powerset_len_mem party_id (List.range' 1 n) (t + 1)
      hmem hnd (by omega)
    rw [hc, hlen]
    congr 1
  have hsortedAll : ∀ p ∈ allSubsetsParties t n party_id,
      p.insertionSort (· ≤ ·) = p := by
    intro p hp
    have hps : p ∈ powerset (List.range' 1 n) := (List.mem_filter.mp hp).1
    exact (sorted_le_of_mem_powerset_range' hps).insertionSort_eq
  refine ⟨?_, hBlen, ?_, ?_, ?_, ?_⟩
  · unfold ecdsaOfflineCollect
    rw [List.length_map]
    exact hBlen
  · intro S hS hSlen hSmem
    unfold allSubsetsParties
    refine countP_filter_eq_one (powerset_nodup _ hnd)
      (mem_powerset_of_sublist hS) ?_
    simp [hSlen, List.elem_eq_mem, hSmem]
  · intro S hS
    have h1 := List.mem_filter.mp hS
    have h2 := h1.2
    simp only [Bool.and_eq_true, beq_iff_eq, List.elem_eq_mem,
      decide_eq_true_eq] at h2
    exact ⟨sublist_of_mem_powerset h1.1, h2.1, h2.2⟩
  · unfold ecdsaOfflineCollect
    rw [List.map_map]
    have h1 : ∀ p ∈ allSubsetsParties t n party_id,
        ((fun r : EcdsaOfflineResult => r.parties) ∘
          (fun parties =>
            let parties2 := parties.insertionSort (· ≤ ·)
            ({ parties := parties2, completed_offline := runOffline parties2 } :
              EcdsaOfflineResult))) p = id p := by
      intro p hp
      simp only [Function.comp, id]
      exact hsortedAll p hp
    rw [List.map_congr_left h1, List.map_id]
  · intro r hr
    unfold ecdsaOfflineCollect at hr
    rcases List.mem_map.mp hr with ⟨p, _, rfl⟩
    rfl

/-- C9 witness: a `t = 1, n = 3` run for party 1 yields `C(2,1) = 2`
offline records. -/
theorem C9_witness :
    (ecdsaOfflineCollect (fun _ => ⟨0⟩) 1 3 1).length = Nat.choose 2 1 :=
  (C9_subset_enumeration (fun _ => ⟨0⟩) 1 3 1 (by decide) (by decide)
    (by decide) (by decide) (by decide)).1


/-! ## Claim C8 -/

/-- C8: `encrypt_with_nonce` produces exactly
`<decimal nonce> ':' base64(AES-256-GCM ciphertext)` with key
`SHA-256(password)` and 12-byte IV `[0,0,0,0] ++ be64(nonce)`; evaluated on
the spec's literal vector (`"hello"`, `"my-password"`, nonce `9999999`)
with the concrete reference implementations of the external crates, it
returns the exact envelope string `"9999999:dYcX59XzlgaRJP82ogwUIb5zvxzX"`. -/
theorem C8_envelope_format :
    (∀ (E : AeadExt) (p pw : List Nat) (nonce : Nat),
      encryptWithNonce E p pw nonce =
        match E.aeadEncrypt (E.sha256 pw) ([0, 0, 0, 0] ++ beBytes 8 nonce) p with
        | none => none
        | some ct => some (natDecimal nonce ++ ':' :: E.b64encode ct)) ∧
    (encryptWithNonce realAead ("hello".data.map Char.toNat)
        ("my-password".data.map Char.toNat) 9999999).map (fun cs => String.mk cs) =
      some "9999999:dYcX59XzlgaRJP82ogwUIb5zvxzX" := by
  constructor
  · intro E p pw nonce
    rfl
  · decide

/-! ## Claim C7 witness -/

/-- C7 witness: the round-trip theorem applied to a concrete plaintext,
password and nonce with a concrete instantiation of the external
primitives. -/
theorem C7_witness :
    decrypt toyAead (natDecimal 7 ++ ':' :: unaryEncode [104, 105]) [9] =
      .ok [104, 105] :=
  C7_envelope_roundtrip toyAead [104, 105] [9] 7
    (natDecimal 7 ++ ':' :: unaryEncode [104, 105])
    (fun _ _ _ _ h => by injection h with h; rw [h]; exact rfl)
    unaryDecode_encode
    unaryEncode_no_colon
    (by decide)
    (by unfold USIZEMOD; omega)
    rfl


/-- C6 witness: a second `sign` call on a fully signed `t = 1` state (two
recorded partials) returns `AlreadySigned` for both schemes and leaves the
state untouched. -/
theorem C6_witness :
    gg20Sign toyEcdsaPrims
        ⟨1, 3, [⟨1, .EDDSA ⟨1⟩, "a"⟩, ⟨2, .EDDSA ⟨2⟩, "b"⟩], none⟩
        ⟨⟨0⟩, [], "gg20"⟩ [1] 1 [1, 2] "t" =
      (⟨1, 3, [⟨1, .EDDSA ⟨1⟩, "a"⟩, ⟨2, .EDDSA ⟨2⟩, "b"⟩], none⟩,
        .error .alreadySigned) ∧
    eddsaSign toyEddsaPrims
        ⟨1, 3, [⟨1, .EDDSA ⟨1⟩, "a"⟩, ⟨2, .EDDSA ⟨2⟩, "b"⟩], none⟩
        (fxEddsaKey 0 1 [⟨[], 0, 0⟩]) [1] 1 0 "t" =
      (⟨1, 3, [⟨1, .EDDSA ⟨1⟩, "a"⟩, ⟨2, .EDDSA ⟨2⟩, "b"⟩], none⟩,
        .error .alreadySigned) :=
  (C6_already_signed_idempotence toyEcdsaPrims toyEddsaPrims
      ⟨1, 3, [⟨1, .EDDSA ⟨1⟩, "a"⟩, ⟨2, .EDDSA ⟨2⟩, "b"⟩], none⟩
      ⟨⟨0⟩, [], "gg20"⟩ (fxEddsaKey 0 1 [⟨[], 0, 0⟩]) [1] 1 0 [1, 2] "t"
      (by decide) (by decide)).1 (by decide)

end Tss

